import Mathlib

/-!
Verification of the capture-store and Obsidian sync core of
twitter-web-exporter-obsync.

Strings manipulated by the program (file contents, JSONL lines, identifiers,
paths) are modelled as lists of characters, so that splitting, trimming and
concatenation are ordinary list operations.  JavaScript machinery used by the
source (JSON.parse / JSON.stringify, Array.prototype.sort, Map/Set, Dexie
tables, the Obsidian vault HTTP interface) is embedded explicitly below, each
piece next to the source function it models.
-/

/-- Characters of a JavaScript string. -/
abbrev Chars := List Char

/-- Decide whether a character is an ASCII decimal digit. -/
def isDigitCh (c : Char) : Bool := '0' ≤ c && c ≤ '9'

/-- Whitespace recognised by String.prototype.trim (core subset). -/
def isWsCh (c : Char) : Bool :=
  c = ' ' || c = '\t' || c = '\n' || c = '\r' || c = '\x0b' || c = '\x0c'

/-- Model of String.prototype.trim. -/
def jsTrim (s : Chars) : Chars :=
  ((s.dropWhile (isWsCh ·)).reverse.dropWhile (isWsCh ·)).reverse

/-- Model of String.prototype.split('\n'). -/
def splitNl : Chars → List Chars
  | [] => [[]]
  | c :: r =>
    if c = '\n' then [] :: splitNl r
    else
      match splitNl r with
      | [] => [[c]]
      | h :: t => (c :: h) :: t

/-- Model of String.prototype.endsWith('\n'). -/
def endsWithNl (s : Chars) : Bool := s.getLast? = some '\n'

/-- Digit characters of a natural number, accumulator form; the fuel is the
number itself, which suffices since the value shrinks by a factor of ten each
step. -/
def natToCharsAux : Nat → Nat → Chars → Chars
  | 0, _, acc => acc
  | f + 1, n, acc =>
    if n < 10 then Char.ofNat (48 + n) :: acc
    else natToCharsAux f (n / 10) (Char.ofNat (48 + n % 10) :: acc)

/-- Decimal rendering of a natural number (model of JS number-to-string for
integers). -/
def natToChars (n : Nat) : Chars := natToCharsAux (n + 1) n []

/-- Decimal rendering of an integer. -/
def intToChars (i : Int) : Chars :=
  if i < 0 then '-' :: natToChars (-i).toNat else natToChars i.toNat

/-- JSON values as produced by JSON.parse.  Numbers keep their source numeral
text (the exported documents only ever contain integers). -/
inductive Json where
  | nullV : Json
  | boolV : Bool → Json
  | numV : Chars → Json
  | strV : Chars → Json
  | arrV : List Json → Json
  | objV : List (Chars × Json) → Json

/-- Hexadecimal digit value, for \uXXXX escapes. -/
def hexValCh (c : Char) : Option Nat :=
  if '0' ≤ c && c ≤ '9' then some (c.toNat - 48)
  else if 'a' ≤ c && c ≤ 'f' then some (c.toNat - 87)
  else if 'A' ≤ c && c ≤ 'F' then some (c.toNat - 55)
  else none

/-- Parse the body of a JSON string literal (after the opening quote), up to
and including the closing quote, with a fuel bound (each step consumes at
least one input character, so the input length suffices).  Returns the
decoded characters and the remaining input.  Unescaped control characters
are rejected, as in JSON.parse. -/
def psbF : Nat → Chars → Option (Chars × Chars)
  | 0, _ => none
  | _ + 1, [] => none
  | f + 1, c :: r =>
    if c = '"' then some ([], r)
    else if c = '\\' then
      match r with
      | [] => none
      | e :: r2 =>
        if e = '"' then (psbF f r2).map (fun p => ('"' :: p.1, p.2))
        else if e = '\\' then (psbF f r2).map (fun p => ('\\' :: p.1, p.2))
        else if e = '/' then (psbF f r2).map (fun p => ('/' :: p.1, p.2))
        else if e = 'b' then (psbF f r2).map (fun p => ('\x08' :: p.1, p.2))
        else if e = 'f' then (psbF f r2).map (fun p => ('\x0c' :: p.1, p.2))
        else if e = 'n' then (psbF f r2).map (fun p => ('\n' :: p.1, p.2))
        else if e = 'r' then (psbF f r2).map (fun p => ('\r' :: p.1, p.2))
        else if e = 't' then (psbF f r2).map (fun p => ('\t' :: p.1, p.2))
        else if e = 'u' then
          match r2 with
          | h1 :: h2 :: h3 :: h4 :: r3 =>
            match hexValCh h1, hexValCh h2, hexValCh h3, hexValCh h4 with
            | some a, some b, some c3, some d =>
              (psbF f r3).map
                (fun p => (Char.ofNat (4096 * a + 256 * b + 16 * c3 + d) :: p.1, p.2))
            | _, _, _, _ => none
          | _ => none
        else none
    else if c.toNat < 32 then none
    else (psbF f r).map (fun p => (c :: p.1, p.2))

/-- Parse the body of a JSON string literal, fuelled by its own length. -/
def parseStringBody (s : Chars) : Option (Chars × Chars) := psbF (s.length + 1) s

/-- Parse the digits of a JSON integer numeral (no leading zeros, as in the
JSON grammar).  The embedding covers the integer sub-grammar of JSON numbers
only: fraction and exponent numerals are treated as unparseable, so every
statement about number-valued properties is explicitly confined to integer
numerals (and, where the JavaScript String() rendering of the parsed double
matters, further to the binary64-exact regime of at most 15 digits). -/
def parseNumTail (s : Chars) : Option (Chars × Chars) :=
  let ds := s.takeWhile (isDigitCh ·)
  if ds = [] then none
  else
    match ds with
    | '0' :: _ :: _ => none
    | _ => some (ds, s.drop ds.length)

/-- Parse a JSON integer numeral with optional leading minus sign. -/
def parseNumeral : Chars → Option (Chars × Chars)
  | [] => none
  | c :: r =>
    if c = '-' then (parseNumTail r).map (fun p => ('-' :: p.1, p.2))
    else parseNumTail (c :: r)

/-- Insignificant whitespace of the JSON grammar. -/
def isJsonWs (c : Char) : Bool := c = ' ' || c = '\t' || c = '\n' || c = '\r'

/-- Skip insignificant JSON whitespace. -/
def skipJWs (s : Chars) : Chars := s.dropWhile (isJsonWs ·)

/-- Grammar position of the recursive JSON parser. -/
inductive PKind where
  | value : PKind
  | elems : PKind
  | elemsReq : PKind
  | membs : PKind
  | membsReq : PKind
deriving DecidableEq

/-- Result of one recursive parsing step. -/
inductive POut where
  | v : Json → POut
  | vs : List Json → POut
  | ms : List (Chars × Json) → POut

/-- Recursive-descent JSON parser (model of JSON.parse), structurally
recursive on a fuel bound.  elems / membs parse the inside of an array /
object after the opening bracket; the Req variants require at least one
further element, so that trailing commas are rejected as in JSON.parse. -/
def parseF : Nat → PKind → Chars → Option (POut × Chars)
  | 0, _, _ => none
  | f + 1, PKind.value, input =>
    match skipJWs input with
    | [] => none
    | c :: r =>
      if c = '"' then (parseStringBody r).map (fun p => (POut.v (Json.strV p.1), p.2))
      else if c = 'n' then
        match r with
        | 'u' :: 'l' :: 'l' :: r2 => some (POut.v Json.nullV, r2)
        | _ => none
      else if c = 't' then
        match r with
        | 'r' :: 'u' :: 'e' :: r2 => some (POut.v (Json.boolV true), r2)
        | _ => none
      else if c = 'f' then
        match r with
        | 'a' :: 'l' :: 's' :: 'e' :: r2 => some (POut.v (Json.boolV false), r2)
        | _ => none
      else if c = '\x7b' then
        (parseF f PKind.membs r).bind
          (fun p =>
            match p.1 with
            | POut.ms m => some (POut.v (Json.objV m), p.2)
            | _ => none)
      else if c = '[' then
        (parseF f PKind.elems r).bind
          (fun p =>
            match p.1 with
            | POut.vs l => some (POut.v (Json.arrV l), p.2)
            | _ => none)
      else if c = '-' || isDigitCh c then
        (parseNumeral (c :: r)).map (fun p => (POut.v (Json.numV p.1), p.2))
      else none
  | f + 1, PKind.elems, input =>
    match skipJWs input with
    | [] => none
    | c :: r =>
      if c = ']' then some (POut.vs [], r)
      else parseF f PKind.elemsReq (c :: r)
  | f + 1, PKind.elemsReq, input =>
    match parseF f PKind.value input with
    | some (POut.v v, r1) =>
      (match skipJWs r1 with
       | ',' :: r2 =>
         (parseF f PKind.elemsReq r2).bind
           (fun p =>
             match p.1 with
             | POut.vs l => some (POut.vs (v :: l), p.2)
             | _ => none)
       | ']' :: r2 => some (POut.vs [v], r2)
       | _ => none)
    | _ => none
  | f + 1, PKind.membs, input =>
    match skipJWs input with
    | [] => none
    | c :: r =>
      if c = '\x7d' then some (POut.ms [], r)
      else parseF f PKind.membsReq (c :: r)
  | f + 1, PKind.membsReq, input =>
    match skipJWs input with
    | '"' :: rk =>
      (parseStringBody rk).bind
        (fun pk =>
          match skipJWs pk.2 with
          | ':' :: r2 =>
            match parseF f PKind.value r2 with
            | some (POut.v v, r3) =>
              (match skipJWs r3 with
               | ',' :: r4 =>
                 (parseF f PKind.membsReq r4).bind
                   (fun p =>
                     match p.1 with
                     | POut.ms m => some (POut.ms ((pk.1, v) :: m), p.2)
                     | _ => none)
               | '\x7d' :: r4 => some (POut.ms [(pk.1, v)], r4)
               | _ => none)
            | _ => none
          | _ => none)
    | _ => none

/-- Model of JSON.parse on a whole string: the value must consume the entire
input up to trailing whitespace. -/
def runParse (s : Chars) : Option Json :=
  match parseF (s.length + 1) PKind.value s with
  | some (POut.v v, rest) => if skipJWs rest = [] then some v else none
  | _ => none

/-- Property lookup on a parsed JSON object: as on a JavaScript object built
by JSON.parse, a duplicated key keeps its last occurrence. -/
def lookupLast (k : Chars) : List (Chars × Json) → Option Json
  | [] => none
  | (k', v) :: rest =>
    match lookupLast k rest with
    | some r => some r
    | none => if k' = k then some v else none

/-- Join character lists with a separator character. -/
def joinSep (sep : Char) : List Chars → Chars
  | [] => []
  | [x] => x
  | x :: y :: rest => x ++ sep :: joinSep sep (y :: rest)

/-- Model of the JavaScript String() conversion applied to a parsed JSON
value, with fuel for nested arrays.  The flag records whether the value is an
element of an array being joined (where null renders as the empty string).
A number is rendered as its stored numeral text (with -0 rendered "0", as
String(-0) is); this agrees with String() of the parsed binary64 value
exactly when the numeral has at most 15 magnitude digits and no leading
zero, and the number statements of the development are confined to that
regime through numeralMagDigits. -/
def jsToStringF : Nat → Bool → Json → Chars
  | 0, _, _ => []
  | _ + 1, inArr, Json.nullV => if inArr then [] else "null".toList
  | _ + 1, _, Json.boolV b => if b then "true".toList else "false".toList
  | _ + 1, _, Json.numV t => if t = "-0".toList then "0".toList else t
  | _ + 1, _, Json.strV s => s
  | f + 1, _, Json.arrV l => joinSep ',' (l.map (jsToStringF f true))
  | _ + 1, _, Json.objV _ => "[object Object]".toList

/-- Identifier contributed by one line of existing JSONL content, if any:
the line is trimmed, must parse as JSON, and its id property must be neither
absent nor null; the identifier is String(parsed.id).  Models the loop body
of extractExistingIds in src/utils/sync.ts. -/
def lineIdOf (line : Chars) : Option Chars :=
  let t := jsTrim line
  if t = [] then none
  else
    match runParse t with
    | some (Json.objV kvs) =>
      match lookupLast "id".toList kvs with
      | none => none
      | some Json.nullV => none
      | some v => some (jsToStringF t.length false v)
    | _ => none

/-- Model of extractExistingIds in src/utils/sync.ts: the set of identifiers
already present in a bucket's existing content (as a list; only membership is
ever used). -/
def extractExistingIds (content : Chars) : List Chars :=
  (splitNl content).filterMap lineIdOf

/-- Lowercase hexadecimal digit character, as emitted by JSON.stringify in
\uXXXX escapes. -/
def hexChar (n : Nat) : Char :=
  if n < 10 then Char.ofNat (48 + n) else Char.ofNat (87 + n)

/-- Escaped body of a JSON string literal, as produced by JSON.stringify:
quote, backslash and control characters are escaped, everything else is
copied verbatim. -/
def escBody : Chars → Chars
  | [] => []
  | c :: r =>
    if c = '"' then '\\' :: '"' :: escBody r
    else if c = '\\' then '\\' :: '\\' :: escBody r
    else if c = '\x08' then '\\' :: 'b' :: escBody r
    else if c = '\x0c' then '\\' :: 'f' :: escBody r
    else if c = '\n' then '\\' :: 'n' :: escBody r
    else if c = '\r' then '\\' :: 'r' :: escBody r
    else if c = '\t' then '\\' :: 't' :: escBody r
    else if c.toNat < 32 then
      '\\' :: 'u' :: '0' :: '0' :: hexChar (c.toNat / 16) :: hexChar (c.toNat % 16) :: escBody r
    else c :: escBody r

/-- Serialized JSON string literal. -/
def strText (s : Chars) : Chars := '"' :: escBody s ++ ['"']

/-- Serialized nullable string. -/
def optStrText : Option Chars → Chars
  | none => "null".toList
  | some s => strText s

/-- Serialized nullable integer. -/
def optIntText : Option Int → Chars
  | none => "null".toList
  | some i => intToChars i

/-- Members of a serialized JSON object after the opening brace, from a list
of key / serialized-value pairs, in order, including the closing brace. -/
def membersText : List (Chars × Chars) → Chars
  | [] => ['\x7d']
  | (k, t) :: rest =>
    strText k ++ ':' :: t ++
      (match rest with
       | [] => ['\x7d']
       | _ => ',' :: membersText rest)

/-- Serialized JSON object. -/
def objText (ms : List (Chars × Chars)) : Chars := '\x7b' :: membersText ms

/-- Elements of a serialized JSON array after the opening bracket, including
the closing bracket. -/
def elemsText : List Chars → Chars
  | [] => [']']
  | [t] => t ++ [']']
  | t :: rest => t ++ ',' :: elemsText rest

/-- Serialized JSON array. -/
def arrText (ts : List Chars) : Chars := '[' :: elemsText ts

/-- The externally visible document shape produced for one tweet (the
ObsidianTweet type of src/utils/sync.ts).  The constant source tag is added
at serialization time. -/
structure ObsidianDoc where
  id : Chars
  created_at : Chars
  screen_name : Chars
  name : Chars
  text : Chars
  url : Chars
  media : List Chars
  favorites : Int
  retweets : Int
  replies : Int
  quotes : Int
  bookmarks : Int
  views : Option Int
  in_reply_to : Option Chars
  retweeted_status : Option Chars
  quoted_status : Option Chars
deriving DecidableEq

/-- Model of JSON.stringify applied to an ObsidianTweet object: keys in
literal order, no insignificant whitespace. -/
def serializeDoc (d : ObsidianDoc) : Chars :=
  objText
    [("id".toList, strText d.id),
     ("created_at".toList, strText d.created_at),
     ("screen_name".toList, strText d.screen_name),
     ("name".toList, strText d.name),
     ("text".toList, strText d.text),
     ("url".toList, strText d.url),
     ("media".toList, arrText (d.media.map strText)),
     ("metrics".toList,
       objText
         [("favorites".toList, intToChars d.favorites),
          ("retweets".toList, intToChars d.retweets),
          ("replies".toList, intToChars d.replies),
          ("quotes".toList, intToChars d.quotes),
          ("bookmarks".toList, intToChars d.bookmarks),
          ("views".toList, optIntText d.views)]),
     ("context".toList,
       objText
         [("in_reply_to".toList, optStrText d.in_reply_to),
          ("retweeted_status".toList, optStrText d.retweeted_status),
          ("quoted_status".toList, optStrText d.quoted_status)]),
     ("source".toList, strText "home_timeline".toList)]

/-- JSON value of a nullable integer. -/
def optIntJson : Option Int → Json
  | none => Json.nullV
  | some i => Json.numV (intToChars i)

/-- JSON value of a nullable string. -/
def optStrJson : Option Chars → Json
  | none => Json.nullV
  | some s => Json.strV s

/-- The JSON value that JSON.parse recovers from a serialized document. -/
def docJson (d : ObsidianDoc) : Json :=
  Json.objV
    [("id".toList, Json.strV d.id),
     ("created_at".toList, Json.strV d.created_at),
     ("screen_name".toList, Json.strV d.screen_name),
     ("name".toList, Json.strV d.name),
     ("text".toList, Json.strV d.text),
     ("url".toList, Json.strV d.url),
     ("media".toList, Json.arrV (d.media.map Json.strV)),
     ("metrics".toList,
       Json.objV
         [("favorites".toList, Json.numV (intToChars d.favorites)),
          ("retweets".toList, Json.numV (intToChars d.retweets)),
          ("replies".toList, Json.numV (intToChars d.replies)),
          ("quotes".toList, Json.numV (intToChars d.quotes)),
          ("bookmarks".toList, Json.numV (intToChars d.bookmarks)),
          ("views".toList, optIntJson d.views)]),
     ("context".toList,
       Json.objV
         [("in_reply_to".toList, optStrJson d.in_reply_to),
          ("retweeted_status".toList, optStrJson d.retweeted_status),
          ("quoted_status".toList, optStrJson d.quoted_status)]),
     ("source".toList, Json.strV "home_timeline".toList)]

/-- Numeric value of an all-digit string. -/
def digitsToNat (s : Chars) : Nat := s.foldl (fun acc c => 10 * acc + (c.toNat - 48)) 0

/-- Modelled from the spec: parseTwitterDateTime of src/utils/common.ts is
not under src/.  The spec describes it as timestamp parsing that either
yields a creation timestamp or an invalid value (checked by isValid in the
projection).  A parseable source timestamp is modelled as a nonempty
all-digit string denoting epoch milliseconds; anything else is unparseable
and yields none (the invalid date value). -/
def parseTwitterDateTime (s : Chars) : Option Nat :=
  if s ≠ [] ∧ s.all (isDigitCh ·) then some (digitsToNat s) else none

/-- Zero-pad a numeral to a given width. -/
def padNat (w : Nat) (n : Nat) : Chars :=
  List.replicate (w - (natToChars n).length) '0' ++ natToChars n

/-- Civil date (year, month, day) of a day count since 1970-01-01, for the
proleptic Gregorian calendar. -/
def civilFromDays (z : Nat) : Nat × Nat × Nat :=
  let era := (z + 719468) / 146097
  let doe := (z + 719468) % 146097
  let yoe := (doe - doe / 1460 + doe / 36524 - doe / 146096) / 365
  let y := yoe + era * 400
  let doy := doe - (365 * yoe + yoe / 4 - yoe / 100)
  let mp := (5 * doy + 2) / 153
  let d := doy - (153 * mp + 2) / 5 + 1
  let m := if mp < 10 then mp + 3 else mp - 9
  (if m ≤ 2 then y + 1 else y, m, d)

/-- UTC calendar date (YYYY-MM-DD) of an epoch-millisecond timestamp. -/
def utcDateChars (ms : Nat) : Chars :=
  let c := civilFromDays (ms / 86400000)
  padNat 4 c.1 ++ '-' :: padNat 2 c.2.1 ++ '-' :: padNat 2 c.2.2

/-- ISO-8601 rendering of an epoch-millisecond timestamp (model of
Date.prototype.toISOString). -/
def toIsoChars (ms : Nat) : Chars :=
  let rem := ms % 86400000
  utcDateChars ms ++ 'T' :: padNat 2 (rem / 3600000) ++
    ':' :: padNat 2 (rem % 3600000 / 60000) ++
    ':' :: padNat 2 (rem % 60000 / 1000) ++
    '.' :: padNat 3 (rem % 1000) ++ ['Z']

/-- Modelled from the spec: formatDateTime(date, 'YYYY-MM-DD') of
src/utils/common.ts is not under src/.  For a valid timestamp it renders the
UTC calendar date; for the invalid value it renders the date library's
documented "Invalid Date" marker string, since the spec attaches the
epoch-zero fallback only to the projection's created_at field. -/
def formatDateTimeYMD : Option Nat → Chars
  | some ms => utcDateChars ms
  | none => "Invalid Date".toList

/-- Legacy block of a stored tweet record (the fields the sync path reads). -/
structure TweetLegacy where
  created_at : Chars
  favorite_count : Int
  retweet_count : Int
  reply_count : Int
  quote_count : Int
  bookmark_count : Int
  in_reply_to_status_id : Option Chars
  full_text : Chars
deriving DecidableEq

/-- Stored tweet record.  Modelled from the spec for the extractor helpers of
src/utils/api.ts (not under src/): extractTweetFullText, getTweetURL,
extractTweetMedia / getMediaOriginalUrl, extractRetweetedTweet and
extractQuotedTweet are pure projections of the record and are modelled as the
fields full_text (inside legacy), url, media, retweeted_id and quoted_id.
A record with no legacy block models the structurally empty data dropped by
filterEmptyData. -/
structure Tweet where
  rest_id : Chars
  legacy : Option TweetLegacy
  screen_name : Chars
  name : Chars
  url : Chars
  media : List Chars
  views_count : Option Int
  retweeted_id : Option Chars
  quoted_id : Option Chars
deriving DecidableEq

/-- Placeholder legacy block; toObsidianTweet is only ever applied to records
that passed filterEmptyData, whose legacy block is present. -/
def defaultLegacy : TweetLegacy :=
  { created_at := [], favorite_count := 0, retweet_count := 0, reply_count := 0,
    quote_count := 0, bookmark_count := 0, in_reply_to_status_id := none,
    full_text := [] }

/-- Model of toObsidianTweet in src/utils/sync.ts: the pure projection of a
stored record to the exported document shape.  The created_at field falls
back to the epoch-zero ISO timestamp when the source timestamp is
unparseable (the isValid check of the source). -/
def toObsidianTweet (t : Tweet) : ObsidianDoc :=
  let l := t.legacy.getD defaultLegacy
  let createdAt := parseTwitterDateTime l.created_at
  { id := t.rest_id
    created_at :=
      match createdAt with
      | some ms => toIsoChars ms
      | none => toIsoChars 0
    screen_name := t.screen_name
    name := t.name
    text := l.full_text
    url := t.url
    media := t.media
    favorites := l.favorite_count
    retweets := l.retweet_count
    replies := l.reply_count
    quotes := l.quote_count
    bookmarks := l.bookmark_count
    views := t.views_count
    in_reply_to := l.in_reply_to_status_id
    retweeted_status := t.retweeted_id
    quoted_status := t.quoted_id }

/-- Modelled from the spec: sort keys are opaque comparable values supplied
by the capture source; compareSortIndex of src/utils/api.ts (not under src/)
is their deterministic ascending comparison.  Keys are modelled as naturals
with the usual order. -/
abbrev SortKey := Nat

/-- Capture provenance record (the Capture type stored in the captures
table). -/
structure Capture where
  id : Chars
  extension : Chars
  kind : Nat
  data_key : Chars
  created_at : Nat
  sort_index : Option SortKey
deriving DecidableEq

/-- Comparator of DatabaseManager.sortCaptures as a relation: both entries
keyed compare ascending by key; a keyed entry comes before an unkeyed one;
two unkeyed entries compare by descending creation timestamp. -/
def capLE (a b : Capture) : Bool :=
  match a.sort_index, b.sort_index with
  | some x, some y => x ≤ y
  | some _, none => true
  | none, some _ => false
  | none, none => b.created_at ≤ a.created_at

/-- Relation form of the sortCaptures comparator. -/
def capRel (a b : Capture) : Prop := capLE a b = true

instance : DecidableRel capRel := fun a b => instDecidableEqBool (capLE a b) true

/-- Model of DatabaseManager.sortCaptures: Array.prototype.sort is a stable
sort by the comparator, modelled by insertion sort on the comparator's
relation. -/
def sortCaptures (l : List Capture) : List Capture := List.insertionSort capRel l

/-- Items handed to extAddTweets, each with an optional explicit sort key. -/
structure WSItem (α : Type) where
  data : α
  sortIndex : Option SortKey
deriving DecidableEq

/-- Modelled from the spec: compareSortIndex applied directly to two optional
sort keys by DatabaseManager.sortItems; ascending on present keys, with a
present key ordered before an absent one. -/
def cmpSortIdxLE (a b : Option SortKey) : Bool :=
  match a, b with
  | some x, some y => x ≤ y
  | some _, none => true
  | none, some _ => false
  | none, none => true

/-- Relation form of the sortItems comparator. -/
def itemRel {α : Type} (a b : WSItem α) : Prop :=
  cmpSortIdxLE a.sortIndex b.sortIndex = true

instance {α : Type} : DecidableRel (itemRel (α := α)) := fun a b =>
  instDecidableEqBool (cmpSortIdxLE a.sortIndex b.sortIndex) true

/-- Model of DatabaseManager.sortItems (stable JS sort by compareSortIndex). -/
def sortItems {α : Type} (l : List (WSItem α)) : List (WSItem α) :=
  List.insertionSort itemRel l

/-- Upsert one row into a keyed table: replace the row with the same key in
place, or append at the end (Dexie put semantics on a primary key). -/
def upsertByKey {α : Type} (key : α → Chars) (row : α) : List α → List α
  | [] => [row]
  | x :: rest =>
    if key x = key row then row :: rest else x :: upsertByKey key row rest

/-- Model of Dexie Table.bulkPut: rows are put in order, so a later row with
the same primary key overwrites an earlier one. -/
def bulkPut {α : Type} (key : α → Chars) (t : List α) (rows : List α) : List α :=
  rows.foldl (fun acc r => upsertByKey key r acc) t

/-- State of the two tables the sync path reads (the users table is not
involved in any claim). -/
structure DbState where
  tweets : List Tweet
  captures : List Capture
deriving DecidableEq

/-- Model of DatabaseManager.extGetCaptures: all captures of one logical
source. -/
def extGetCaptures (db : DbState) (extName : Chars) : List Capture :=
  db.captures.filter (fun c => decide (c.extension = extName))

/-- Model of DatabaseManager.extGetCapturesSince: captures of one source with
creation timestamp strictly greater than the bound. -/
def extGetCapturesSince (db : DbState) (extName : Chars) (since : Nat) : List Capture :=
  db.captures.filter (fun c => decide (c.extension = extName) && decide (c.created_at > since))

/-- Lookup in a JS Map built from a keyed list: a later entry with the same
key overwrites an earlier one. -/
def mapLookup {α : Type} (key : α → Chars) (l : List α) (k : Chars) : Option α :=
  l.reverse.find? (fun x => decide (key x = k))

/-- Model of DatabaseManager.extGetCapturedTweets: sort the captures, take
their record identifiers, fetch the referenced non-empty records, and restore
capture order through a lookup map, dropping identifiers whose record is
missing. -/
def extGetCapturedTweets (db : DbState) (extName : Chars) : List Tweet :=
  let captures := extGetCaptures db extName
  let tweetIds := (sortCaptures captures).map (fun c => c.data_key)
  let fetched := db.tweets.filter
    (fun t => tweetIds.contains t.rest_id && t.legacy.isSome)
  tweetIds.filterMap (fun i => mapLookup (fun t => t.rest_id) fetched i)

/-- Model of DatabaseManager.extAddTweets: sort the batch by explicit sort
key, upsert the records, then upsert one capture per item whose composite
identifier is extension + "-" + record id and whose creation timestamp is
biased by the intra-batch index (Date.now() is the now argument). -/
def extAddTweets (db : DbState) (extName : Chars) (items : List (WSItem Tweet)) (now : Nat) : DbState :=
  let sorted := sortItems items
  { tweets := bulkPut (fun t => t.rest_id) db.tweets (sorted.map (fun it => it.data))
    captures := bulkPut (fun c => c.id) db.captures
      (sorted.enum.map
        (fun p =>
          { id := extName ++ '-' :: p.2.data.rest_id
            extension := extName
            kind := 0
            data_key := p.2.data.rest_id
            created_at := now + p.1
            sort_index := p.2.sortIndex }))
  }

/-- Response of the Obsidian vault HTTP layer (status and body text). -/
structure ObsResp where
  status : Int
  text : Chars
deriving DecidableEq

/-- Behavior injected for a GET of one path, to model remote failures: a
fixed response, or a rejected request (network failure). -/
inductive GetBeh where
  | fixedResp : Int → Chars → GetBeh
  | rejectReq : GetBeh
deriving DecidableEq

/-- Association-list lookup by path. -/
def lookupA {α : Type} (l : List (Chars × α)) (k : Chars) : Option α :=
  (l.find? (fun p => decide (p.1 = k))).map (fun p => p.2)

/-- The external vault: stored files plus per-path overrides of GET behavior
(an empty override list is the well-behaved vault). -/
structure Vault where
  files : List (Chars × Chars)
  getOverride : List (Chars × GetBeh)
deriving DecidableEq

/-- Model of getVaultFile: an overridden path answers with its injected
behavior; otherwise a stored file answers 200 with its content and a missing
file answers 404. -/
def vaultGet (v : Vault) (path : Chars) : Except Chars ObsResp :=
  match lookupA v.getOverride path with
  | some (GetBeh.fixedResp s t) => Except.ok (ObsResp.mk s t)
  | some GetBeh.rejectReq => Except.error "Obsidian request failed".toList
  | none =>
    match lookupA v.files path with
    | some c => Except.ok (ObsResp.mk 200 c)
    | none => Except.ok (ObsResp.mk 404 [])

/-- Model of putVaultFile: the write is stored and acknowledged with 200. -/
def vaultPut (v : Vault) (path content : Chars) : ObsResp × Vault :=
  (ObsResp.mk 200 [],
   { v with files := upsertByKey (fun p => p.1) (path, content) v.files })

/-- The SyncSummary type of src/utils/sync.ts. -/
structure SyncSummary where
  total : Nat
  synced : Nat
  skipped : Nat
  files : Nat
  errors : List Chars
deriving DecidableEq

/-- Model of isOkStatus in src/utils/sync.ts. -/
def isOkStatus (s : Int) : Bool := 200 ≤ s && s < 300

/-- Error message recorded for a failed bucket read. -/
def getFailMsg (path : Chars) (status : Int) : Chars :=
  "GET ".toList ++ path ++ " failed (".toList ++ intToChars status ++ [')']

/-- Error message recorded for a failed bucket write. -/
def putFailMsg (path : Chars) (status : Int) : Chars :=
  "PUT ".toList ++ path ++ " failed (".toList ++ intToChars status ++ [')']

/-- Path of a bucket file. -/
def bucketPath (folder dateKey : Chars) : Chars :=
  folder ++ '/' :: dateKey ++ ".jsonl".toList

/-- Append a projected document to its bucket, preserving Map insertion
order of bucket keys. -/
def addToBuckets (bs : List (Chars × List ObsidianDoc)) (key : Chars) (d : ObsidianDoc) :
    List (Chars × List ObsidianDoc) :=
  match bs with
  | [] => [(key, [d])]
  | (k, items) :: rest =>
    if k = key then (k, items ++ [d]) :: rest
    else (k, items) :: addToBuckets rest key d

/-- Model of the bucket-building loop of syncHomeTimelineToObsidian: group
the projected documents by the date key derived from each record's creation
timestamp. -/
def groupBuckets (tweets : List Tweet) : List (Chars × List ObsidianDoc) :=
  tweets.foldl
    (fun bs t =>
      addToBuckets bs
        (formatDateTimeYMD (parseTwitterDateTime ((t.legacy.getD defaultLegacy).created_at)))
        (toObsidianTweet t))
    []

/-- Model of the per-bucket body of syncHomeTimelineToObsidian: read the
existing file (404 means empty), isolate a read failure as a recorded error,
deduplicate by existing identifiers, and append-and-write the new documents
when there are any. -/
def processBucket (folder : Chars) (acc : SyncSummary × Vault)
    (b : Chars × List ObsidianDoc) : SyncSummary × Vault :=
  let sum := acc.1
  let v := acc.2
  let path := bucketPath folder b.1
  let items := b.2
  match vaultGet v path with
  | Except.error msg => ({ sum with errors := sum.errors ++ [msg] }, v)
  | Except.ok resp =>
    if resp.status = 404 ∨ isOkStatus resp.status then
      let existing := if resp.status = 404 then [] else resp.text
      let existingIds := extractExistingIds existing
      let newItems := items.filter (fun it => !(existingIds.contains it.id))
      let sum1 := { sum with skipped := sum.skipped + (items.length - newItems.length) }
      if newItems.isEmpty then (sum1, v)
      else
        let newLines := joinSep '\n' (newItems.map serializeDoc) ++ ['\n']
        let combined :=
          existing ++
            (if existing ≠ [] ∧ ¬(endsWithNl existing = true) then ['\n'] else []) ++ newLines
        let pr := vaultPut v path combined
        if isOkStatus pr.1.status then
          ({ sum1 with synced := sum1.synced + newItems.length, files := sum1.files + 1 }, pr.2)
        else ({ sum1 with errors := sum1.errors ++ [putFailMsg path pr.1.status] }, pr.2)
    else ({ sum with errors := sum.errors ++ [getFailMsg path resp.status] }, v)

/-- Sync of an already-fetched record list: zero summary without remote I/O
when there is nothing to export, otherwise fold the buckets through
processBucket. -/
def syncCore (tweets : List Tweet) (folder : Chars) (v : Vault) : SyncSummary × Vault :=
  let sum0 : SyncSummary :=
    { total := tweets.length, synced := 0, skipped := 0, files := 0, errors := [] }
  if tweets.isEmpty then (sum0, v)
  else (groupBuckets tweets).foldl (processBucket folder) (sum0, v)

/-- The default bucket folder. -/
def OBSIDIAN_DEFAULT_FOLDER : Chars := "Tweets".toList

/-- The HomeTimelineModule source name. -/
def HOME_TL : Chars := "HomeTimelineModule".toList

/-- Model of syncHomeTimelineToObsidian in src/utils/sync.ts: the function
takes only the bucket folder; it fetches ALL captured records of the home
timeline source through extGetCapturedTweets (there is no since parameter in
its signature, although the scheduler passes one). -/
def syncHomeTimelineToObsidian (db : DbState) (folder : Chars) (v : Vault) :
    SyncSummary × Vault :=
  syncCore (extGetCapturedTweets db HOME_TL) folder v

/-- Result of one (uninterleaved) scheduler tick: whether a sync ran, the
persisted last-sync offset afterwards, and the in-flight flag afterwards. -/
structure TickResult where
  ran : Bool
  lastAfter : Option Nat
  inFlightAfter : Bool
deriving DecidableEq

/-- Model of SyncManager.tick as a single uninterrupted execution: the guard
chain (in-flight, visibility, connectivity, no-new-captures) may skip the
run; otherwise the sync engine is invoked, whose outcome is abstracted as a
resolved summary or a rejection.  Only a resolved invocation persists the
current time as the last-sync offset; the finally block clears the flag on
both paths. -/
def tickOutcome (db : DbState) (inFlight0 visible onLine : Bool)
    (lastSyncAt : Option Nat) (syncResult : Except Chars SyncSummary)
    (now : Nat) : TickResult :=
  if inFlight0 then TickResult.mk false lastSyncAt inFlight0
  else if ¬(visible = true) then TickResult.mk false lastSyncAt inFlight0
  else if ¬(onLine = true) then TickResult.mk false lastSyncAt inFlight0
  else
    match lastSyncAt with
    | some t =>
      if (extGetCapturesSince db HOME_TL t).isEmpty then
        TickResult.mk false lastSyncAt inFlight0
      else
        match syncResult with
        | Except.ok _ => TickResult.mk true (some now) false
        | Except.error _ => TickResult.mk true lastSyncAt false
    | none =>
      match syncResult with
      | Except.ok _ => TickResult.mk true (some now) false
      | Except.error _ => TickResult.mk true lastSyncAt false

/-- Phases of one tick execution, split at its suspension points (awaits):
a tick that passes the synchronous guards with a recorded last-sync offset
suspends on the capture query BEFORE the in-flight flag is set, then again
while the sync invocation is in flight. -/
inductive TickPhase where
  | notStarted : TickPhase
  | atCapturesAwait : TickPhase
  | atSyncAwait : TickPhase
  | doneSkip : TickPhase
  | doneRun : TickPhase
deriving DecidableEq

/-- Environment of a tick (guard inputs, held fixed across the
interleaving). -/
structure TickCtx where
  visible : Bool
  onLine : Bool
  lastSyncSet : Bool
  hasNewCaptures : Bool
deriving DecidableEq

/-- Shared scheduler state: the in-flight flag and counters of sync
invocations started and completed. -/
structure SchedGlobal where
  inFlight : Bool
  syncStarts : Nat
  syncDones : Nat
deriving DecidableEq

/-- One atomic segment of SyncManager.tick (the code between two suspension
points), acting on the shared state. -/
def tickStep (ctx : TickCtx) (g : SchedGlobal) (p : TickPhase) :
    SchedGlobal × TickPhase :=
  match p with
  | TickPhase.notStarted =>
    if g.inFlight then (g, TickPhase.doneSkip)
    else if ¬(ctx.visible = true) then (g, TickPhase.doneSkip)
    else if ¬(ctx.onLine = true) then (g, TickPhase.doneSkip)
    else if ctx.lastSyncSet then (g, TickPhase.atCapturesAwait)
    else
      ({ g with inFlight := true, syncStarts := g.syncStarts + 1 },
       TickPhase.atSyncAwait)
  | TickPhase.atCapturesAwait =>
    if ctx.hasNewCaptures then
      ({ g with inFlight := true, syncStarts := g.syncStarts + 1 },
       TickPhase.atSyncAwait)
    else (g, TickPhase.doneSkip)
  | TickPhase.atSyncAwait =>
    ({ g with inFlight := false, syncDones := g.syncDones + 1 },
     TickPhase.doneRun)
  | TickPhase.doneSkip => (g, TickPhase.doneSkip)
  | TickPhase.doneRun => (g, TickPhase.doneRun)

/-- Joint state of two concurrently fired ticks. -/
structure TwoTicks where
  g : SchedGlobal
  p1 : TickPhase
  p2 : TickPhase
deriving DecidableEq

/-- Run two tick coroutines under a schedule: true advances the first tick by
one atomic segment, false the second.  This is exactly the JavaScript event
loop's behavior for two firings of the async tick. -/
def runSchedule (ctx : TickCtx) (s : TwoTicks) : List Bool → TwoTicks
  | [] => s
  | b :: rest =>
    let s' :=
      if b then
        let r := tickStep ctx s.g s.p1
        { s with g := r.1, p1 := r.2 }
      else
        let r := tickStep ctx s.g s.p2
        { s with g := r.1, p2 := r.2 }
    runSchedule ctx s' rest

/-- Count of sync invocations currently in flight in the two-tick state. -/
def inFlightSyncs (s : TwoTicks) : Nat :=
  (if s.p1 = TickPhase.atSyncAwait then 1 else 0) +
    (if s.p2 = TickPhase.atSyncAwait then 1 else 0)

/-- Test whether the remaining input begins with a character that ends a JSON
value context (or is exhausted); such a remainder cannot extend a preceding
numeral. -/
def headStopB : Chars → Bool
  | [] => true
  | c :: _ => c = ',' || c = '\x7d' || c = ']'

/-- A serialized text t parses back (at any sufficient fuel, in any stopped
context) to the value v; b is the fuel bound. -/
def ValueEnc (v : Json) (t : Chars) (b : Nat) : Prop :=
  ∀ f r, b ≤ f → headStopB r = true → parseF f PKind.value (t ++ r) = some (POut.v v, r)

/-- Content currently stored in the vault at a path (empty when absent). -/
def contentAt (v : Vault) (p : Chars) : Chars := (lookupA v.files p).getD []

/-- Every document of a bucket already has its identifier present in the
stored bucket file. -/
def saturatedFor (folder : Chars) (v : Vault) (b : Chars × List ObsidianDoc) : Prop :=
  ∀ d ∈ b.2, d.id ∈ extractExistingIds (contentAt v (bucketPath folder b.1))

/-- Capture stored under a composite identifier. -/
def capById (db : DbState) (i : Chars) : Option Capture :=
  db.captures.find? (fun c => decide (c.id = i))

/-- Concrete tweet fixture with a given identifier and source timestamp. -/
def twFix (rid : Chars) (ca : Chars) : Tweet :=
  { rest_id := rid
    legacy := some { defaultLegacy with created_at := ca }
    screen_name := "alice".toList
    name := "Alice".toList
    url := "https://x/1".toList
    media := []
    views_count := none
    retweeted_id := none
    quoted_id := none }

/-- Concrete capture fixture for the home timeline source. -/
def capFix (k : Chars) (si : Option SortKey) (ca : Nat) : Capture :=
  { id := HOME_TL ++ '-' :: k, extension := HOME_TL, kind := 0, data_key := k,
    created_at := ca, sort_index := si }

/-- Fixture: three captures with explicit sort keys 3, 1, 2. -/
def dbSortKeys : DbState :=
  { tweets := [twFix "a".toList "0".toList, twFix "b".toList "0".toList,
               twFix "c".toList "0".toList],
    captures := [capFix "a".toList (some 3) 100, capFix "b".toList (some 1) 101,
                 capFix "c".toList (some 2) 102] }

/-- Fixture: three captures without sort keys, creation timestamps 10, 20, 30. -/
def dbNoKeys : DbState :=
  { tweets := [twFix "a".toList "0".toList, twFix "b".toList "0".toList,
               twFix "c".toList "0".toList],
    captures := [capFix "a".toList none 10, capFix "b".toList none 20,
                 capFix "c".toList none 30] }

/-- Fixture: one capture recorded at epoch 5 and one at epoch 15, with their
records. -/
def dbC1 : DbState :=
  { tweets := [twFix "1".toList "86400000".toList, twFix "2".toList "86400000".toList],
    captures := [capFix "1".toList none 5, capFix "2".toList none 15] }

/-- Fixture: the 1970-01-02 bucket path under the default folder. -/
def bpFix : Chars := bucketPath OBSIDIAN_DEFAULT_FOLDER "1970-01-02".toList

/-- Fixture: a vault whose 1970-01-02 bucket already holds one line with
string id "1" and a trailing newline. -/
def vaultFix : Vault :=
  { files := [(bpFix, "\x7b\"id\":\"1\"\x7d\n".toList)], getOverride := [] }

/-- Apply a sequence of capture-adding batches (source name, items, clock
value) to an empty store. -/
def foldBatches (batches : List (Chars × List (WSItem Tweet) × Nat)) : DbState :=
  batches.foldl (fun db b => extAddTweets db b.1 b.2.1 b.2.2) (DbState.mk [] [])

/-- The documents of a bucket that survive deduplication against an existing
file content (the newItems of processBucket). -/
def pbNew (items : List ObsidianDoc) (existing : Chars) : List ObsidianDoc :=
  items.filter (fun it => !((extractExistingIds existing).contains it.id))

/-- The file content written by processBucket: the existing content, a
conditional separator newline, and the serialized new documents. -/
def pbCombined (items : List ObsidianDoc) (existing : Chars) : Chars :=
  existing ++ (if existing ≠ [] ∧ ¬(endsWithNl existing = true) then ['\n'] else [])
    ++ (joinSep '\n' ((pbNew items existing).map serializeDoc) ++ ['\n'])

/-- The tail of processBucket once the existing content has been determined
(after a 404 or 2xx read): skip everything when nothing is new, otherwise
write the combined content (the embedded put always acknowledges with 200,
so the failure branch of the write cannot be taken). -/
def pbAfterGet (folder : Chars) (sum : SyncSummary) (v : Vault) (k : Chars)
    (items : List ObsidianDoc) (existing : Chars) : SyncSummary × Vault :=
  if (pbNew items existing).isEmpty then
    ({ sum with skipped := sum.skipped + (items.length - (pbNew items existing).length) }, v)
  else
    ({ sum with
        skipped := sum.skipped + (items.length - (pbNew items existing).length),
        synced := sum.synced + (pbNew items existing).length,
        files := sum.files + 1 },
     (vaultPut v (bucketPath folder k) (pbCombined items existing)).2)

/-- The total number of documents carried by a bucket list. -/
def bucketsLen (bs : List (Chars × List ObsidianDoc)) : Nat :=
  (bs.map (fun b => b.2.length)).sum

/-- Fixture: a vault whose 1970-01-02 bucket GET is overridden to answer
with status 500. -/
def vault500 : Vault :=
  { files := [], getOverride := [(bpFix, GetBeh.fixedResp 500 [])] }

/-- Fixture: a vault holding a non-empty 1970-01-02 bucket file whose GET is
nevertheless overridden to answer 404 with a non-empty body. -/
def vault404 : Vault :=
  { files := [(bpFix, "\x7b\"id\":\"1\"\x7d\n".toList)],
    getOverride := [(bpFix, GetBeh.fixedResp 404 "ignored".toList)] }

/-- Fixture: a well-behaved vault whose 1970-01-02 bucket file exists but is
empty. -/
def vaultEmptyFile : Vault :=
  { files := [(bpFix, [])], getOverride := [] }

set_option maxRecDepth 40000

/-!
Theorems.  Each claim Cn of the specification review has exactly one main
theorem below, preceded by helper lemmas shared across claims.
-/

instance : IsTrans Capture capRel :=
  ⟨by
    intro a b c hab hbc
    unfold capRel capLE at *
    rcases ha : a.sort_index with _ | x <;> rcases hb : b.sort_index with _ | y <;>
      rcases hc : c.sort_index with _ | z <;>
      simp only [ha, hb, hc] at hab hbc ⊢ <;> simp_all <;>
      first
      | omega
      | exact Nat.le_trans hab hbc⟩

instance : IsTotal Capture capRel :=
  ⟨by
    intro a b
    unfold capRel capLE
    rcases ha : a.sort_index with _ | x <;> rcases hb : b.sort_index with _ | y <;>
      simp only [ha, hb] <;> simp <;>
      first
      | omega
      | exact Nat.le_total x y⟩

theorem mem_upsertByKey {α : Type} (key : α → Chars) (row : α) (l : List α) :
    ∀ e ∈ upsertByKey key row l, e = row ∨ e ∈ l := by
  induction l with
  | nil => simp [upsertByKey]
  | cons x xs ih =>
    intro e he
    simp only [upsertByKey] at he
    by_cases h : key x = key row
    · rw [if_pos h] at he
      rcases List.mem_cons.mp he with rfl | hx
      · exact Or.inl rfl
      · exact Or.inr (List.mem_cons_of_mem _ hx)
    · rw [if_neg h] at he
      rcases List.mem_cons.mp he with rfl | hx
      · exact Or.inr (List.mem_cons_self _ _)
      · rcases ih e hx with h1 | h1
        · exact Or.inl h1
        · exact Or.inr (List.mem_cons_of_mem _ h1)

theorem pairwise_upsertByKey {α : Type} (key : α → Chars) (row : α) (l : List α)
    (h : l.Pairwise (fun a b => key a ≠ key b)) :
    (upsertByKey key row l).Pairwise (fun a b => key a ≠ key b) := by
  induction l with
  | nil => simp [upsertByKey]
  | cons x xs ih =>
    rcases List.pairwise_cons.mp h with ⟨hx, hxs⟩
    simp only [upsertByKey]
    by_cases hk : key x = key row
    · rw [if_pos hk]
      exact List.pairwise_cons.mpr ⟨fun y hy => hk ▸ hx y hy, hxs⟩
    · rw [if_neg hk]
      refine List.pairwise_cons.mpr ⟨fun y hy => ?_, ih hxs⟩
      rcases mem_upsertByKey key row xs y hy with rfl | hyy
      · exact fun hc => hk hc
      · exact hx y hyy

theorem mem_bulkPut {α : Type} (key : α → Chars) (t rows : List α) :
    ∀ e ∈ bulkPut key t rows, e ∈ rows ∨ e ∈ t := by
  induction rows generalizing t with
  | nil => intro e he; exact Or.inr he
  | cons r rest ih =>
    intro e he
    rcases ih (upsertByKey key r t) e he with h1 | h1
    · exact Or.inl (List.mem_cons_of_mem _ h1)
    · rcases mem_upsertByKey key r t e h1 with rfl | h2
      · exact Or.inl (List.mem_cons_self _ _)
      · exact Or.inr h2

theorem pairwise_bulkPut {α : Type} (key : α → Chars) (t rows : List α)
    (h : t.Pairwise (fun a b => key a ≠ key b)) :
    (bulkPut key t rows).Pairwise (fun a b => key a ≠ key b) := by
  induction rows generalizing t with
  | nil => exact h
  | cons r rest ih => exact ih _ (pairwise_upsertByKey key r t h)

theorem find?_upsertByKey {α : Type} (key : α → Chars) (row : α) (l : List α) (k : Chars) :
    (upsertByKey key row l).find? (fun x => decide (key x = k))
      = if key row = k then some row else l.find? (fun x => decide (key x = k)) := by
  induction l with
  | nil =>
    simp only [upsertByKey, List.find?]
    by_cases hrk : key row = k <;> simp [hrk]
  | cons x xs ih =>
    simp only [upsertByKey]
    by_cases hk : key x = key row
    · rw [if_pos hk]
      by_cases hrk : key row = k
      · simp [List.find?, hrk]
      · have hxk : ¬(key x = k) := fun hc => hrk (hk ▸ hc)
        simp [List.find?, hrk, hxk]
    · rw [if_neg hk]
      by_cases hxk : key x = k
      · have hrk : ¬(key row = k) := fun hc => hk (hxk ▸ hc.symm ▸ rfl)
        simp [List.find?, hxk, hrk]
      · simp [List.find?, hxk, ih]

theorem find?_bulkPut {α : Type} (key : α → Chars) (t rows : List α) (k : Chars) :
    (bulkPut key t rows).find? (fun x => decide (key x = k))
      = match rows.reverse.find? (fun x => decide (key x = k)) with
        | some r => some r
        | none => t.find? (fun x => decide (key x = k)) := by
  induction rows generalizing t with
  | nil => simp [bulkPut]
  | cons r rest ih =>
    have step : bulkPut key t (r :: rest) = bulkPut key (upsertByKey key r t) rest := rfl
    rw [step, ih]
    rw [List.reverse_cons, List.find?_append]
    cases hfind : rest.reverse.find? (fun x => decide (key x = k)) with
    | some r' => simp [hfind]
    | none =>
      simp only [hfind, Option.none_orElse]
      by_cases hrk : key r = k
      · simp [List.find?, hrk, find?_upsertByKey]
      · simp [List.find?, hrk, find?_upsertByKey]

theorem capShape_extAddTweets (db : DbState) (extName : Chars)
    (items : List (WSItem Tweet)) (now : Nat)
    (h : ∀ e ∈ db.captures, e.id = e.extension ++ '-' :: e.data_key) :
    ∀ e ∈ (extAddTweets db extName items now).captures,
      e.id = e.extension ++ '-' :: e.data_key := by
  intro e he
  rcases mem_bulkPut _ _ _ e he with h1 | h1
  · rcases List.mem_map.mp h1 with ⟨p, _, rfl⟩
    rfl
  · exact h e h1

theorem capNodup_extAddTweets (db : DbState) (extName : Chars)
    (items : List (WSItem Tweet)) (now : Nat)
    (h : db.captures.Pairwise (fun a b => a.id ≠ b.id)) :
    (extAddTweets db extName items now).captures.Pairwise (fun a b => a.id ≠ b.id) :=
  pairwise_bulkPut _ _ _ h

theorem filter_same_key_len_le_one (l : List Capture) (extName k : Chars)
    (hnd : l.Pairwise (fun a b => a.id ≠ b.id))
    (hshape : ∀ e ∈ l, e.id = e.extension ++ '-' :: e.data_key) :
    ((l.filter (fun c => decide (c.extension = extName))).filter
        (fun c => decide (c.data_key = k))).length ≤ 1 := by
  have hsub1 : List.Sublist (l.filter (fun c => decide (c.extension = extName))) l :=
    List.filter_sublist l
  have hsub : List.Sublist ((l.filter (fun c => decide (c.extension = extName))).filter
      (fun c => decide (c.data_key = k))) l :=
    List.Sublist.trans (List.filter_sublist _) hsub1
  have hnd2 := hnd.sublist hsub
  cases hres : (l.filter (fun c => decide (c.extension = extName))).filter
      (fun c => decide (c.data_key = k)) with
  | nil => simp
  | cons x xs =>
    cases xs with
    | nil => simp
    | cons y ys =>
      exfalso
      have hx : x ∈ l := hsub.mem (hres ▸ List.mem_cons_self _ _)
      have hy : y ∈ l := hsub.mem (hres ▸ List.mem_cons_of_mem _ (List.mem_cons_self _ _))
      have hxy : x.id ≠ y.id := by
        have := hnd2
        rw [hres] at this
        exact (List.pairwise_cons.mp this).1 y (List.mem_cons_self _ _)
      have hxmem := hres ▸ List.mem_cons_self x (y :: ys)
      have hymem := hres ▸ List.mem_cons_of_mem x (List.mem_cons_self y ys)
      have hxp := List.of_mem_filter hxmem
      have hyp := List.of_mem_filter hymem
      have hxp2 := List.of_mem_filter (List.mem_of_mem_filter hxmem)
      have hyp2 := List.of_mem_filter (List.mem_of_mem_filter hymem)
      simp only [decide_eq_true_eq] at hxp hyp hxp2 hyp2
      apply hxy
      rw [hshape x hx, hshape y hy, hxp, hyp, hxp2, hyp2]

theorem find?_map_capRow (extName k : Chars) (now : Nat)
    (l : List (Nat × WSItem Tweet)) :
    ((l.map (fun p =>
        (⟨extName ++ '-' :: p.2.data.rest_id, extName, 0, p.2.data.rest_id,
          now + p.1, p.2.sortIndex⟩ : Capture))).find?
      (fun c => decide (c.id = extName ++ '-' :: k))).map
        (fun c => (c.data_key, c.sort_index))
      = (l.find? (fun p => decide (p.2.data.rest_id = k))).map
          (fun p => (p.2.data.rest_id, p.2.sortIndex)) := by
  induction l with
  | nil => simp [List.find?]
  | cons p rest ih =>
    simp only [List.map_cons, List.find?]
    have hiff : (extName ++ '-' :: p.2.data.rest_id = extName ++ '-' :: k)
        ↔ p.2.data.rest_id = k := by
      constructor
      · intro h
        have := List.append_cancel_left h
        exact List.cons_injective.eq_iff.mp this
      · intro h; rw [h]
    by_cases hk : p.2.data.rest_id = k
    · simp [hiff, hk]
    · have : ¬(extName ++ '-' :: p.2.data.rest_id = extName ++ '-' :: k) :=
        fun hc => hk (hiff.mp hc)
      simp only [decide_eq_false this, decide_eq_false hk]
      exact ih

theorem find?_snd_pred {γ β : Type} (l : List (Nat × γ)) (q : γ → Bool) (g : γ → β) :
    ((l.find? (fun p => q p.2)).map (fun p => g p.2))
      = ((l.map Prod.snd).find? q).map g := by
  induction l with
  | nil => simp [List.find?]
  | cons p rest ih =>
    simp only [List.map_cons, List.find?]
    cases hq : q p.2 <;> simp [hq, ih]

/-- Claim C9, amended: after any sequence of capture-adding batches the store
holds at most one Capture per (source name, record identifier) pair, every
stored capture's composite identifier is source + "-" + record id, and within
one batch the capture stored for a record identifier is the LAST occurrence
of that identifier in the batch AFTER it has been ordered by the sort-key
comparator (for entries with equal keys the stable sort preserves submission
order, so the last submitted wins only then). -/
theorem claim_C9_unique_capture_per_record :
    (∀ (batches : List (Chars × List (WSItem Tweet) × Nat)),
      (foldBatches batches).captures.Pairwise (fun a b => a.id ≠ b.id) ∧
      (∀ e ∈ (foldBatches batches).captures,
        e.id = e.extension ++ '-' :: e.data_key) ∧
      (∀ extName k, ((extGetCaptures (foldBatches batches) extName).filter
          (fun c => decide (c.data_key = k))).length ≤ 1)) ∧
    (∀ (extName : Chars) (items : List (WSItem Tweet)) (now : Nat) (k : Chars),
      (capById (extAddTweets (DbState.mk [] []) extName items now)
          (extName ++ '-' :: k)).map (fun c => (c.data_key, c.sort_index))
        = ((sortItems items).reverse.find?
            (fun it => decide (it.data.rest_id = k))).map
              (fun it => (it.data.rest_id, it.sortIndex))) := by
  constructor
  · intro batches
    have main : ∀ (bs : List (Chars × List (WSItem Tweet) × Nat)) (db0 : DbState),
        db0.captures.Pairwise (fun a b => a.id ≠ b.id) →
        (∀ e ∈ db0.captures, e.id = e.extension ++ '-' :: e.data_key) →
        (bs.foldl (fun db b => extAddTweets db b.1 b.2.1 b.2.2) db0).captures.Pairwise
            (fun a b => a.id ≠ b.id) ∧
          ∀ e ∈ (bs.foldl (fun db b => extAddTweets db b.1 b.2.1 b.2.2) db0).captures,
            e.id = e.extension ++ '-' :: e.data_key := by
      intro bs
      induction bs with
      | nil => intro db0 h1 h2; exact ⟨h1, h2⟩
      | cons b rest ih =>
        intro db0 h1 h2
        exact ih _ (capNodup_extAddTweets db0 b.1 b.2.1 b.2.2 h1)
          (capShape_extAddTweets db0 b.1 b.2.1 b.2.2 h2)
    obtain ⟨h1, h2⟩ := main batches (DbState.mk [] []) (by simp) (by simp)
    exact ⟨h1, h2, fun extName k => filter_same_key_len_le_one _ extName k h1 h2⟩

  · intro extName items now k
    have hchain := find?_map_capRow extName k now (sortItems items).enum.reverse
    have hsnd := find?_snd_pred (sortItems items).enum.reverse
      (fun it => decide (it.data.rest_id = k))
      (fun it => (it.data.rest_id, it.sortIndex))
    rw [List.map_reverse, List.enum_map_snd] at hsnd
    have hfull := hchain.trans hsnd
    show ((bulkPut (fun c => c.id) ([] : List Capture)
        ((sortItems items).enum.map (fun p =>
          (⟨extName ++ '-' :: p.2.data.rest_id, extName, 0, p.2.data.rest_id,
            now + p.1, p.2.sortIndex⟩ : Capture)))).find?
        (fun c => decide (c.id = extName ++ '-' :: k))).map
          (fun c => (c.data_key, c.sort_index)) = _
    rw [find?_bulkPut]
    rw [← List.map_reverse]
    cases hfind : (((sortItems items).enum.reverse.map (fun p =>
        (⟨extName ++ '-' :: p.2.data.rest_id, extName, 0, p.2.data.rest_id,
          now + p.1, p.2.sortIndex⟩ : Capture))).find?
        (fun c => decide (c.id = extName ++ '-' :: k))) with
    | none =>
      rw [hfind] at hfull
      simpa using hfull
    | some r =>
      rw [hfind] at hfull
      exact hfull

/-- Claim C9, counterexample: a batch that submits the same record identifier
twice with explicit sort keys 5 then 3 stores the FIRST-submitted entry
(sort key 5), because the batch is sorted ascending by key before the bulk
put, so the last entry of the sorted batch wins, not the last submitted. -/
theorem claim_C9_counterexample :
    (extGetCaptures
        (extAddTweets (DbState.mk [] []) "ext".toList
          [WSItem.mk (twFix "1".toList "0".toList) (some 5),
           WSItem.mk (twFix "1".toList "0".toList) (some 3)] 1000)
        "ext".toList).map (fun c => c.sort_index) = [some 5] ∧
    ¬((extGetCaptures
        (extAddTweets (DbState.mk [] []) "ext".toList
          [WSItem.mk (twFix "1".toList "0".toList) (some 5),
           WSItem.mk (twFix "1".toList "0".toList) (some 3)] 1000)
        "ext".toList).map (fun c => c.sort_index) = [some 3]) := by
  exact ⟨by decide, by decide⟩

/-- Claim C9, witness: the amended theorem applied to one concrete batch in
which the identifier "1" is submitted twice (sort keys 5 then 3): the store
holds exactly one capture for it, carrying sort key 5. -/
theorem claim_C9_witness :
    ((extGetCaptures
        (foldBatches [("ext".toList,
          [WSItem.mk (twFix "1".toList "0".toList) (some 5),
           WSItem.mk (twFix "1".toList "0".toList) (some 3)], 1000)])
        "ext".toList).filter
          (fun c => decide (c.data_key = "1".toList))).length ≤ 1 ∧
    (capById (extAddTweets (DbState.mk [] []) "ext".toList
        [WSItem.mk (twFix "1".toList "0".toList) (some 5),
         WSItem.mk (twFix "1".toList "0".toList) (some 3)] 1000)
        ("ext".toList ++ '-' :: "1".toList)).map (fun c => (c.data_key, c.sort_index))
      = ((sortItems
            [WSItem.mk (twFix "1".toList "0".toList) (some 5),
             WSItem.mk (twFix "1".toList "0".toList) (some 3)]).reverse.find?
          (fun it => decide (it.data.rest_id = "1".toList))).map
            (fun it => (it.data.rest_id, it.sortIndex)) := by
  refine ⟨(claim_C9_unique_capture_per_record.1 _).2.2 "ext".toList "1".toList,
    claim_C9_unique_capture_per_record.2 "ext".toList _ 1000 "1".toList⟩

/-- Claim C4: capture-driven record retrieval orders its output by the
comparator rule — ascending explicit sort key when both entries have one, a
keyed entry before an unkeyed one, otherwise descending creation timestamp.
The sorted capture list is a permutation of the stored captures that is
pairwise ordered by the comparator; with sort keys [3,1,2] the records come
back in key order [1,2,3], and with no sort keys in descending created_at
order. -/
theorem claim_C4_capture_ordering :
    (∀ l : List Capture,
        (sortCaptures l).Perm l ∧ List.Pairwise capRel (sortCaptures l)) ∧
    (extGetCapturedTweets dbSortKeys HOME_TL).map (fun t => t.rest_id)
      = ["b".toList, "c".toList, "a".toList] ∧
    (extGetCapturedTweets dbNoKeys HOME_TL).map (fun t => t.rest_id)
      = ["c".toList, "b".toList, "a".toList] := by
  refine ⟨fun l => ⟨List.perm_insertionSort capRel l,
    List.sorted_insertionSort capRel l⟩, by decide, by decide⟩

/-- Claim C2: the claim fails on the code.  When a last-sync offset is
recorded, the tick awaits the capture query BEFORE setting the in-flight
flag; interleaving two timer firings at that await (schedule A, B, A, B)
leaves BOTH ticks with a sync invocation in flight (two started, none
completed), so the flag does not ensure mutual exclusion. -/
theorem claim_C2_two_syncs_in_flight :
    inFlightSyncs
        (runSchedule (TickCtx.mk true true true true)
          (TwoTicks.mk (SchedGlobal.mk false 0 0) TickPhase.notStarted TickPhase.notStarted)
          [true, false, true, false]) = 2 ∧
    (runSchedule (TickCtx.mk true true true true)
        (TwoTicks.mk (SchedGlobal.mk false 0 0) TickPhase.notStarted TickPhase.notStarted)
        [true, false, true, false]).g.syncStarts = 2 ∧
    (runSchedule (TickCtx.mk true true true true)
        (TwoTicks.mk (SchedGlobal.mk false 0 0) TickPhase.notStarted TickPhase.notStarted)
        [true, false, true, false]).g.syncDones = 0 := by
  exact ⟨by decide, by decide, by decide⟩

/-- Claim C1: the claim fails on the code.  The sync operation has no since
parameter and always fetches ALL captured records: with captures recorded at
epochs 5 and 15 and the scheduler's offset at 10, the guard sees one new
capture (so a sync runs), yet the sync fetches both records — including the
one captured at epoch 5, before the offset — and reports total = 2. -/
theorem claim_C1_since_argument_ignored :
    (extGetCapturesSince dbC1 HOME_TL 10).length = 1 ∧
    (capFix "1".toList none 5).created_at < 10 ∧
    (syncHomeTimelineToObsidian dbC1 OBSIDIAN_DEFAULT_FOLDER (Vault.mk [] [])).1.total = 2 ∧
    (extGetCapturedTweets dbC1 HOME_TL).map (fun t => t.rest_id)
      = ["2".toList, "1".toList] := by
  exact ⟨by decide, by decide, by decide, by decide⟩

/-- Claim C3: for every tick that invokes the sync engine, only a resolved
invocation advances the persisted last-sync offset to the current time; a
rejected invocation leaves it unchanged (and a skipped tick also leaves it
unchanged). -/
theorem claim_C3_offset_only_on_success :
    ∀ (db : DbState) (inF vis onl : Bool) (last : Option Nat)
      (res : Except Chars SyncSummary) (now : Nat),
      ((tickOutcome db inF vis onl last res now).ran = true →
        (∀ e, res = Except.error e →
          (tickOutcome db inF vis onl last res now).lastAfter = last) ∧
        (∀ s, res = Except.ok s →
          (tickOutcome db inF vis onl last res now).lastAfter = some now)) ∧
      ((tickOutcome db inF vis onl last res now).ran = false →
        (tickOutcome db inF vis onl last res now).lastAfter = last) := by
  intro db inF vis onl last res now
  cases inF <;> cases vis <;> cases onl <;> rcases last with _ | t <;>
    rcases res with e | s <;> simp [tickOutcome] <;> split_ifs <;> simp_all

/-- Claim C3, witness: a tick that runs with no recorded offset and a
rejected sync invocation leaves the offset unset. -/
theorem claim_C3_witness :
    (tickOutcome (DbState.mk [] []) false true true none (Except.error []) 7).lastAfter
      = none :=
  ((claim_C3_offset_only_on_success (DbState.mk [] []) false true true none
      (Except.error []) 7).1 (by decide)).1 [] rfl

/-- Claim C6, counterexample: for a record whose source timestamp is
unparseable, the projection's created_at falls back to the epoch-zero ISO
timestamp, but the bucket key used to group the record is the invalid-date
marker, NOT the UTC calendar date (1970-01-01) of that fallback timestamp:
the fallback is applied at only one of the two call sites. -/
theorem claim_C6_counterexample :
    groupBuckets [twFix "x".toList "garbage".toList]
      = [("Invalid Date".toList, [toObsidianTweet (twFix "x".toList "garbage".toList)])] ∧
    (toObsidianTweet (twFix "x".toList "garbage".toList)).created_at
      = "1970-01-01T00:00:00.000Z".toList ∧
    ¬("Invalid Date".toList = utcDateChars 0) := by
  exact ⟨by decide, by decide, by decide⟩

/-- Claim C6, amended: when the source timestamp parses, the bucket key is
the UTC calendar date of the SAME timestamp that populates the document's
created_at field; when it does not parse, created_at falls back to the
epoch-zero ISO timestamp while the bucket key is the invalid-date marker
(not the epoch-zero date). -/
theorem claim_C6_bucket_key_same_timestamp :
    (∀ (t : Tweet) (ms : Nat),
      parseTwitterDateTime ((t.legacy.getD defaultLegacy).created_at) = some ms →
      formatDateTimeYMD (parseTwitterDateTime ((t.legacy.getD defaultLegacy).created_at))
          = utcDateChars ms ∧
        (toObsidianTweet t).created_at = toIsoChars ms) ∧
    (∀ (t : Tweet),
      parseTwitterDateTime ((t.legacy.getD defaultLegacy).created_at) = none →
      formatDateTimeYMD (parseTwitterDateTime ((t.legacy.getD defaultLegacy).created_at))
          = "Invalid Date".toList ∧
        (toObsidianTweet t).created_at = toIsoChars 0) := by
  constructor
  · intro t ms h
    constructor
    · rw [h]; rfl
    · show (toObsidianTweet t).created_at = toIsoChars ms
      unfold toObsidianTweet
      simp only [h]
  · intro t h
    constructor
    · rw [h]; rfl
    · show (toObsidianTweet t).created_at = toIsoChars 0
      unfold toObsidianTweet
      simp only [h]

/-- Claim C6, witness: applied to a record captured at epoch 86400000 ms, the
bucket key is 1970-01-02 and created_at is the matching ISO timestamp. -/
theorem claim_C6_witness :
    formatDateTimeYMD
        (parseTwitterDateTime
          (((twFix "1".toList "86400000".toList).legacy.getD defaultLegacy).created_at))
        = utcDateChars 86400000 ∧
      (toObsidianTweet (twFix "1".toList "86400000".toList)).created_at
        = toIsoChars 86400000 :=
  claim_C6_bucket_key_same_timestamp.1 (twFix "1".toList "86400000".toList) 86400000
    (by decide)
theorem hexVal_hexChar (n : Nat) (h : n < 16) : hexValCh (hexChar n) = some n := by
  interval_cases n <;> decide

theorem escBody_len_ge (s : Chars) : s.length ≤ (escBody s).length := by
  induction s with
  | nil => simp [escBody]
  | cons c s' ih =>
    simp only [escBody]
    split_ifs <;> simp [List.length_cons] <;> omega

theorem psbF_escBody (s : Chars) : ∀ (f : Nat) (r : Chars), s.length + 1 ≤ f →
    psbF f (escBody s ++ '"' :: r) = some (s, r) := by
  induction s with
  | nil =>
    intro f r hf
    obtain ⟨f', rfl⟩ : ∃ f', f = f' + 1 := ⟨f - 1, by omega⟩
    rfl
  | cons c s' ih =>
    intro f r hf
    obtain ⟨f', rfl⟩ : ∃ f', f = f' + 1 := ⟨f - 1, by omega⟩
    have hf' : s'.length + 1 ≤ f' := by
      simp only [List.length_cons] at hf; omega
    have hih := ih f' r hf'
    by_cases h1 : c = '"'
    · subst h1; simp [escBody, psbF, hih]
    · by_cases h2 : c = '\\'
      · subst h2; simp [escBody, psbF, hih]
      · by_cases h3 : c = '\x08'
        · subst h3; simp [escBody, psbF, hih]
        · by_cases h4 : c = '\x0c'
          · subst h4; simp [escBody, psbF, hih]
          · by_cases h5 : c = '\n'
            · subst h5; simp [escBody, psbF, hih]
            · by_cases h6 : c = '\r'
              · subst h6; simp [escBody, psbF, hih]
              · by_cases h7 : c = '\t'
                · subst h7; simp [escBody, psbF, hih]
                · by_cases h8 : c.toNat < 32
                  · have hhi : c.toNat / 16 < 16 := by omega
                    have hlo : c.toNat % 16 < 16 := by omega
                    simp only [escBody, if_neg h1, if_neg h2, if_neg h3, if_neg h4,
                      if_neg h5, if_neg h6, if_neg h7, if_pos h8, List.cons_append]
                    have h0 : hexValCh '0' = some 0 := rfl
                    simp [psbF, h0, hexVal_hexChar _ hhi, hexVal_hexChar _ hlo, hih]
                    have harith : 16 * (c.toNat / 16) + c.toNat % 16 = c.toNat := by omega
                    rw [harith, Char.ofNat_toNat]
                  · simp only [escBody, if_neg h1, if_neg h2, if_neg h3, if_neg h4,
                      if_neg h5, if_neg h6, if_neg h7, if_neg h8, List.cons_append]
                    simp only [psbF, if_neg h1, if_neg h2, if_neg h8, hih]
                    rfl

theorem parseStringBody_escBody (s r : Chars) :
    parseStringBody (escBody s ++ '"' :: r) = some (s, r) := by
  apply psbF_escBody
  have := escBody_len_ge s
  simp only [List.length_append, List.length_cons]
  omega

theorem natToCharsAux_spec : ∀ (f n : Nat) (acc : Chars), n < f →
    ∃ ds, natToCharsAux f n acc = ds ++ acc ∧ ds ≠ [] ∧
      (∀ c ∈ ds, isDigitCh c = true) ∧ (ds.head? = some '0' → n = 0) := by
  intro f
  induction f with
  | zero => intro n acc h; omega
  | succ f' ih =>
    intro n acc h
    by_cases hn : n < 10
    · refine ⟨[Char.ofNat (48 + n)], by simp [natToCharsAux, hn], by simp, ?_, ?_⟩
      · intro c hc
        rcases List.mem_singleton.mp hc with rfl
        interval_cases n <;> decide
      · intro hh
        simp only [List.head?_cons, Option.some_inj] at hh
        interval_cases n <;> simp_all <;> omega
    · have hrec : n / 10 < f' := by omega
      obtain ⟨ds', h1, h2, h3, h4⟩ := ih (n / 10) (Char.ofNat (48 + n % 10) :: acc) hrec
      refine ⟨ds' ++ [Char.ofNat (48 + n % 10)], ?_, by simp [h2], ?_, ?_⟩
      · simp only [natToCharsAux, if_neg hn, h1, List.append_assoc, List.cons_append,
          List.nil_append]
      · intro c hc
        rcases List.mem_append.mp hc with hcl | hcr
        · exact h3 c hcl
        · rcases List.mem_singleton.mp hcr with rfl
          have : n % 10 < 10 := by omega
          interval_cases hm : (n % 10) <;> simp_all <;> decide
      · intro hh
        rcases ds' with _ | ⟨d0, ds''⟩
        · exact absurd rfl h2
        · simp only [List.cons_append, List.head?_cons, Option.some_inj] at hh
          have := h4 (by simp [hh])
          omega

theorem natToChars_spec (n : Nat) :
    natToChars n ≠ [] ∧ (∀ c ∈ natToChars n, isDigitCh c = true) ∧
      ((natToChars n).head? = some '0' → n = 0) := by
  obtain ⟨ds, h1, h2, h3, h4⟩ := natToCharsAux_spec (n + 1) n [] (by omega)
  unfold natToChars
  rw [h1, List.append_nil]
  exact ⟨h2, h3, h4⟩

theorem takeWhile_append_all (p : Char → Bool) (a b : Chars)
    (ha : ∀ c ∈ a, p c = true) (hb : b.takeWhile p = []) :
    (a ++ b).takeWhile p = a := by
  induction a with
  | nil => simpa using hb
  | cons x xs ih =>
    simp only [List.cons_append, List.takeWhile_cons, ha x (List.mem_cons_self _ _)]
    rw [ih (fun c hc => ha c (List.mem_cons_of_mem _ hc))]
    simp

theorem headStop_no_digit (r : Chars) (h : headStopB r = true) :
    r.takeWhile (fun c => isDigitCh c) = [] := by
  cases r with
  | nil => rfl
  | cons c rest =>
    simp only [headStopB, Bool.or_eq_true, decide_eq_true_eq] at h
    rcases h with (h | h) | h <;> subst h <;> rfl

theorem parseNumTail_natToChars (n : Nat) (r : Chars) (hr : headStopB r = true) :
    parseNumTail (natToChars n ++ r) = some (natToChars n, r) := by
  obtain ⟨hne, hdig, hzero⟩ := natToChars_spec n
  have htake : (natToChars n ++ r).takeWhile (fun c => isDigitCh c) = natToChars n :=
    takeWhile_append_all _ _ _ hdig (headStop_no_digit r hr)
  have hdrop : (natToChars n ++ r).drop (natToChars n).length = r := List.drop_left _ _
  unfold parseNumTail
  simp only [htake]
  rw [if_neg hne]
  split
  · rename_i x xs hbad
    have h0 : n = 0 := hzero (by rw [hbad]; rfl)
    subst h0
    have : natToChars 0 = ['0'] := by decide
    rw [this] at hbad
    exact absurd hbad (by simp)
  · rw [hdrop]

theorem digit_facts (c : Char) (h : isDigitCh c = true) :
    ¬(c = '"') ∧ ¬(c = 'n') ∧ ¬(c = 't') ∧ ¬(c = 'f') ∧ ¬(c = '\x7b') ∧
      ¬(c = '[') ∧ ¬(c = '-') ∧ isJsonWs c = false := by
  have hws : isJsonWs c = false := by
    cases hb : isJsonWs c with
    | false => rfl
    | true =>
      exfalso
      simp only [isJsonWs, Bool.or_eq_true, decide_eq_true_eq] at hb
      rcases hb with ((h1 | h1) | h1) | h1 <;> subst h1 <;> exact absurd h (by decide)
  refine ⟨?_, ?_, ?_, ?_, ?_, ?_, ?_, hws⟩ <;>
    (intro hc; subst hc; exact absurd h (by decide))

theorem parseNumeral_intToChars (i : Int) (r : Chars) (hr : headStopB r = true) :
    parseNumeral (intToChars i ++ r) = some (intToChars i, r) := by
  by_cases hneg : i < 0
  · simp only [intToChars, if_pos hneg, List.cons_append]
    show parseNumeral ('-' :: (natToChars (-i).toNat ++ r)) = _
    simp only [parseNumeral, if_pos rfl]
    rw [parseNumTail_natToChars _ _ hr]
    rfl
  · simp only [intToChars, if_neg hneg]
    obtain ⟨hne, hdig, _⟩ := natToChars_spec i.toNat
    cases hds : natToChars i.toNat with
    | nil => exact absurd hds hne
    | cons d0 ds =>
      have hd0 : isDigitCh d0 = true := hdig d0 (by rw [hds]; exact List.mem_cons_self _ _)
      have hfacts := digit_facts d0 hd0
      simp only [List.cons_append, parseNumeral, if_neg hfacts.2.2.2.2.2.2.1]
      rw [← List.cons_append, ← hds, parseNumTail_natToChars _ _ hr]

theorem skipJWs_cons (c : Char) (r : Chars) (h : isJsonWs c = false) :
    skipJWs (c :: r) = c :: r := by
  simp [skipJWs, List.dropWhile_cons, h]

theorem valueEnc_mono {v : Json} {t : Chars} {b b' : Nat} (h : ValueEnc v t b)
    (hb : b ≤ b') : ValueEnc v t b' :=
  fun f r hf hr => h f r (le_trans hb hf) hr

theorem valueEnc_null : ValueEnc Json.nullV ("null".toList) 1 := by
  intro f r hf hr
  obtain ⟨f', rfl⟩ : ∃ f', f = f' + 1 := ⟨f - 1, by omega⟩
  rfl

theorem valueEnc_str (s : Chars) : ValueEnc (Json.strV s) (strText s) 1 := by
  intro f r hf hr
  obtain ⟨f', rfl⟩ : ∃ f', f = f' + 1 := ⟨f - 1, by omega⟩
  show parseF (f' + 1) PKind.value (('"' :: escBody s ++ ['"']) ++ r) = _
  have heq : ('"' :: escBody s ++ ['"']) ++ r = '"' :: (escBody s ++ '"' :: r) := by
    simp
  rw [heq]
  simp only [parseF]
  rw [skipJWs_cons _ _ (by decide)]
  simp only [reduceIte]
  rw [parseStringBody_escBody]
  rfl

theorem parseF_value_cons (f : Nat) (c : Char) (rest : Chars) (h : isJsonWs c = false) :
    parseF (f + 1) PKind.value (c :: rest)
      = (if c = '"' then (parseStringBody rest).map
            (fun p => (POut.v (Json.strV p.1), p.2))
         else if c = 'n' then
           match rest with
           | 'u' :: 'l' :: 'l' :: r2 => some (POut.v Json.nullV, r2)
           | _ => none
         else if c = 't' then
           match rest with
           | 'r' :: 'u' :: 'e' :: r2 => some (POut.v (Json.boolV true), r2)
           | _ => none
         else if c = 'f' then
           match rest with
           | 'a' :: 'l' :: 's' :: 'e' :: r2 => some (POut.v (Json.boolV false), r2)
           | _ => none
         else if c = '\x7b' then
           (parseF f PKind.membs rest).bind
             (fun p =>
               match p.1 with
               | POut.ms m => some (POut.v (Json.objV m), p.2)
               | _ => none)
         else if c = '[' then
           (parseF f PKind.elems rest).bind
             (fun p =>
               match p.1 with
               | POut.vs l => some (POut.v (Json.arrV l), p.2)
               | _ => none)
         else if c = '-' || isDigitCh c then
           (parseNumeral (c :: rest)).map
             (fun p => (POut.v (Json.numV p.1), p.2))
         else none) := by
  simp only [parseF]
  rw [skipJWs_cons c rest h]
  rfl

theorem valueEnc_num (i : Int) : ValueEnc (Json.numV (intToChars i)) (intToChars i) 1 := by
  intro f r hf hr
  obtain ⟨f', rfl⟩ : ∃ f', f = f' + 1 := ⟨f - 1, by omega⟩
  have hnum := parseNumeral_intToChars i r hr
  by_cases hneg : i < 0
  · simp only [intToChars, if_pos hneg] at hnum ⊢
    simp only [List.cons_append] at hnum ⊢
    rw [parseF_value_cons _ _ _ (by decide)]
    simp only [reduceIte]
    rw [hnum]
    rfl
  · simp only [intToChars, if_neg hneg] at hnum ⊢
    obtain ⟨hne, hdig, _⟩ := natToChars_spec i.toNat
    cases hds : natToChars i.toNat with
    | nil => exact absurd hds hne
    | cons d0 ds =>
      rw [hds] at hnum
      have hd0 : isDigitCh d0 = true := hdig d0 (by rw [hds]; exact List.mem_cons_self _ _)
      have hfacts := digit_facts d0 hd0
      simp only [List.cons_append] at hnum ⊢
      rw [parseF_value_cons _ _ _ hfacts.2.2.2.2.2.2.2]
      rw [if_neg hfacts.1, if_neg hfacts.2.1, if_neg hfacts.2.2.1, if_neg hfacts.2.2.2.1,
        if_neg hfacts.2.2.2.2.1, if_neg hfacts.2.2.2.2.2.1]
      have hcond : (decide (d0 = '-') || isDigitCh d0) = true := by
        simp [hd0]
      rw [if_pos hcond, hnum]
      rfl

theorem valueEnc_optStr (o : Option Chars) : ValueEnc (optStrJson o) (optStrText o) 1 := by
  cases o with
  | none => exact valueEnc_null
  | some s => exact valueEnc_str s

theorem valueEnc_optInt (o : Option Int) : ValueEnc (optIntJson o) (optIntText o) 1 := by
  cases o with
  | none => exact valueEnc_null
  | some i => exact valueEnc_num i

theorem parseF_elems_cons (f : Nat) (c : Char) (rest : Chars) (h : isJsonWs c = false) :
    parseF (f + 1) PKind.elems (c :: rest)
      = if c = ']' then some (POut.vs [], rest) else parseF f PKind.elemsReq (c :: rest) := by
  simp only [parseF]
  rw [skipJWs_cons c rest h]

theorem parseF_membs_cons (f : Nat) (c : Char) (rest : Chars) (h : isJsonWs c = false) :
    parseF (f + 1) PKind.membs (c :: rest)
      = if c = '\x7d' then some (POut.ms [], rest) else parseF f PKind.membsReq (c :: rest) := by
  simp only [parseF]
  rw [skipJWs_cons c rest h]

theorem parseF_elemsReq_comma (f : Nat) (input : Chars) (v : Json) (r2 : Chars)
    (hv : parseF f PKind.value input = some (POut.v v, ',' :: r2)) :
    parseF (f + 1) PKind.elemsReq input
      = (parseF f PKind.elemsReq r2).bind
          (fun p =>
            match p.1 with
            | POut.vs l => some (POut.vs (v :: l), p.2)
            | _ => none) := by
  simp only [parseF, hv]
  rw [skipJWs_cons ',' r2 (by decide)]
  rfl

theorem parseF_elemsReq_close (f : Nat) (input : Chars) (v : Json) (r2 : Chars)
    (hv : parseF f PKind.value input = some (POut.v v, ']' :: r2)) :
    parseF (f + 1) PKind.elemsReq input = some (POut.vs [v], r2) := by
  simp only [parseF, hv]
  rw [skipJWs_cons ']' r2 (by decide)]
  rfl

theorem elemsReq_strs (ss : List Chars) : ∀ (s0 : Chars) (f : Nat) (r : Chars),
    ss.length + 2 ≤ f → headStopB r = true →
    parseF f PKind.elemsReq (elemsText ((s0 :: ss).map strText) ++ r)
      = some (POut.vs ((s0 :: ss).map Json.strV), r) := by
  induction ss with
  | nil =>
    intro s0 f r hf hr
    obtain ⟨f', rfl⟩ : ∃ f', f = f' + 1 := ⟨f - 1, by omega⟩
    show parseF (f' + 1) PKind.elemsReq ((strText s0 ++ [']']) ++ r) = _
    have heq : (strText s0 ++ [']']) ++ r = strText s0 ++ (']' :: r) := by simp
    rw [heq]
    rw [parseF_elemsReq_close f' _ (Json.strV s0) r
      (valueEnc_str s0 f' (']' :: r) (by omega) rfl)]
    rfl
  | cons s1 ss' ih =>
    intro s0 f r hf hr
    obtain ⟨f', rfl⟩ : ∃ f', f = f' + 1 := ⟨f - 1, by omega⟩
    show parseF (f' + 1) PKind.elemsReq
        ((strText s0 ++ ',' :: elemsText ((s1 :: ss').map strText)) ++ r) = _
    have heq : (strText s0 ++ ',' :: elemsText ((s1 :: ss').map strText)) ++ r
        = strText s0 ++ (',' :: (elemsText ((s1 :: ss').map strText) ++ r)) := by simp
    rw [heq]
    rw [parseF_elemsReq_comma f' _ (Json.strV s0) (elemsText ((s1 :: ss').map strText) ++ r)
      (valueEnc_str s0 f' (',' :: (elemsText ((s1 :: ss').map strText) ++ r))
        (by omega) rfl)]
    rw [ih s1 f' r (by simp at hf ⊢; omega) hr]
    rfl

theorem elems_strs (ss : List Chars) (f : Nat) (r : Chars)
    (hf : ss.length + 3 ≤ f) (hr : headStopB r = true) :
    parseF f PKind.elems (elemsText (ss.map strText) ++ r)
      = some (POut.vs (ss.map Json.strV), r) := by
  obtain ⟨f', rfl⟩ : ∃ f', f = f' + 1 := ⟨f - 1, by omega⟩
  cases ss with
  | nil =>
    show parseF (f' + 1) PKind.elems (']' :: r) = _
    rw [parseF_elems_cons _ _ _ (by decide)]
    rfl
  | cons s0 ss' =>
    have hhead : ∃ tl, elemsText ((s0 :: ss').map strText) = '"' :: tl := by
      cases ss' with
      | nil => exact ⟨escBody s0 ++ ['"'] ++ [']'], by simp [elemsText, strText]⟩
      | cons s1 ss'' =>
        exact ⟨escBody s0 ++ ['"'] ++ ',' :: elemsText ((s1 :: ss'').map strText),
          by simp [elemsText, strText]⟩
    obtain ⟨tl, htl⟩ := hhead
    rw [htl, List.cons_append, parseF_elems_cons _ _ _ (by decide), if_neg (by decide)]
    rw [← List.cons_append, ← htl]
    exact elemsReq_strs ss' s0 f' r (by simp at hf ⊢; omega) hr

theorem valueEnc_arr_str (ss : List Chars) :
    ValueEnc (Json.arrV (ss.map Json.strV)) (arrText (ss.map strText)) (ss.length + 4) := by
  intro f r hf hr
  obtain ⟨f', rfl⟩ : ∃ f', f = f' + 1 := ⟨f - 1, by omega⟩
  show parseF (f' + 1) PKind.value ('[' :: (elemsText (ss.map strText) ++ r)) = _
  rw [parseF_value_cons _ _ _ (by decide)]
  simp only [reduceIte]
  rw [elems_strs ss f' r (by omega) hr]
  rfl

theorem parseF_membsReq_comma (f : Nat) (k inner : Chars) (v : Json) (r2 : Chars)
    (hv : parseF f PKind.value inner = some (POut.v v, ',' :: r2)) :
    parseF (f + 1) PKind.membsReq ('"' :: (escBody k ++ '"' :: (':' :: inner)))
      = (parseF f PKind.membsReq r2).bind
          (fun p =>
            match p.1 with
            | POut.ms m => some (POut.ms ((k, v) :: m), p.2)
            | _ => none) := by
  simp only [parseF]
  rw [skipJWs_cons '"' _ (by decide)]
  simp only [parseStringBody_escBody, Option.some_bind]
  rw [skipJWs_cons ':' inner (by decide)]
  simp only [hv]
  rw [skipJWs_cons ',' r2 (by decide)]
  rfl

theorem parseF_membsReq_close (f : Nat) (k inner : Chars) (v : Json) (r2 : Chars)
    (hv : parseF f PKind.value inner = some (POut.v v, '\x7d' :: r2)) :
    parseF (f + 1) PKind.membsReq ('"' :: (escBody k ++ '"' :: (':' :: inner)))
      = some (POut.ms [(k, v)], r2) := by
  simp only [parseF]
  rw [skipJWs_cons '"' _ (by decide)]
  simp only [parseStringBody_escBody, Option.some_bind]
  rw [skipJWs_cons ':' inner (by decide)]
  simp only [hv]
  rw [skipJWs_cons '\x7d' r2 (by decide)]
  rfl

theorem membsReq_specs (specs : List (Chars × Chars × Json × Nat)) : specs ≠ [] →
    (∀ sp ∈ specs, ValueEnc sp.2.2.1 sp.2.1 sp.2.2.2) →
    ∀ (f : Nat) (r : Chars),
      (specs.map (fun sp => sp.2.2.2 + 1)).sum + 1 ≤ f → headStopB r = true →
      parseF f PKind.membsReq (membersText (specs.map (fun sp => (sp.1, sp.2.1))) ++ r)
        = some (POut.ms (specs.map (fun sp => (sp.1, sp.2.2.1))), r) := by
  induction specs with
  | nil => intro h; exact absurd rfl h
  | cons sp specs' ih =>
    intro _ henc f r hf hr
    obtain ⟨f', rfl⟩ : ∃ f', f = f' + 1 := ⟨f - 1, by omega⟩
    have hsp := henc sp (List.mem_cons_self _ _)
    simp only [List.map_cons, List.map_cons, List.sum_cons] at hf ⊢
    cases specs' with
    | nil =>
      show parseF (f' + 1) PKind.membsReq
          ((strText sp.1 ++ ':' :: sp.2.1 ++ ['\x7d']) ++ r) = _
      have heq : (strText sp.1 ++ ':' :: sp.2.1 ++ ['\x7d']) ++ r
          = '"' :: (escBody sp.1 ++ '"' :: (':' :: (sp.2.1 ++ '\x7d' :: r))) := by
        simp [strText]
      rw [heq]
      rw [parseF_membsReq_close f' sp.1 _ sp.2.2.1 r
        (hsp f' ('\x7d' :: r) (by simp at hf ⊢; omega) rfl)]
      rfl
    | cons sp2 specs'' =>
      show parseF (f' + 1) PKind.membsReq
          ((strText sp.1 ++ ':' :: sp.2.1 ++
            ',' :: membersText (((sp2 :: specs'').map (fun sp => (sp.1, sp.2.1))))) ++ r) = _
      have heq : (strText sp.1 ++ ':' :: sp.2.1 ++
            ',' :: membersText (((sp2 :: specs'').map (fun sp => (sp.1, sp.2.1))))) ++ r
          = '"' :: (escBody sp.1 ++ '"' :: (':' :: (sp.2.1 ++
              ',' :: (membersText (((sp2 :: specs'').map (fun sp => (sp.1, sp.2.1)))) ++ r)))) := by
        simp [strText]
      rw [heq]
      rw [parseF_membsReq_comma f' sp.1 _ sp.2.2.1 _
        (hsp f' (',' :: (membersText (((sp2 :: specs'').map (fun sp => (sp.1, sp.2.1)))) ++ r))
          (by simp at hf ⊢; omega) rfl)]
      rw [ih (by simp) (fun x hx => henc x (List.mem_cons_of_mem _ hx)) f' r
        (by simp at hf ⊢; omega) hr]
      rfl

theorem valueEnc_obj (specs : List (Chars × Chars × Json × Nat))
    (henc : ∀ sp ∈ specs, ValueEnc sp.2.2.1 sp.2.1 sp.2.2.2) :
    ValueEnc (Json.objV (specs.map (fun sp => (sp.1, sp.2.2.1))))
      (objText (specs.map (fun sp => (sp.1, sp.2.1))))
      ((specs.map (fun sp => sp.2.2.2 + 1)).sum + 3) := by
  intro f r hf hr
  obtain ⟨f', rfl⟩ : ∃ f', f = f' + 1 := ⟨f - 1, by omega⟩
  show parseF (f' + 1) PKind.value
      ('\x7b' :: (membersText (specs.map (fun sp => (sp.1, sp.2.1))) ++ r)) = _
  rw [parseF_value_cons _ _ _ (by decide)]
  simp only [Char.reduceEq, reduceIte, if_true, if_false]
  obtain ⟨f'', rfl⟩ : ∃ f'', f' = f'' + 1 := ⟨f' - 1, by omega⟩
  cases specs with
  | nil =>
    show (parseF (f'' + 1) PKind.membs ('\x7d' :: r)).bind _ = _
    rw [parseF_membs_cons _ _ _ (by decide)]
    rfl
  | cons sp specs' =>
    have hhead : membersText (((sp :: specs').map (fun sp => (sp.1, sp.2.1))))
        = '"' :: (escBody sp.1 ++ '"' :: (':' :: (sp.2.1 ++
            (match specs' with
             | [] => ['\x7d']
             | _ => ',' :: membersText ((specs'.map (fun sp => (sp.1, sp.2.1))))) ))) := by
      cases specs' <;> simp [membersText, strText]
    rw [hhead, List.cons_append, parseF_membs_cons _ _ _ (by decide), if_neg (by decide)]
    rw [← List.cons_append, ← hhead]
    rw [membsReq_specs (sp :: specs') (by simp) henc f'' r (by simp at hf ⊢; omega) hr]
    rfl

theorem valueEnc_doc (d : ObsidianDoc) :
    ValueEnc (docJson d) (serializeDoc d) (d.media.length + 48) := by
  have hmetrics := valueEnc_obj
    [("favorites".toList, intToChars d.favorites, Json.numV (intToChars d.favorites), 1),
     ("retweets".toList, intToChars d.retweets, Json.numV (intToChars d.retweets), 1),
     ("replies".toList, intToChars d.replies, Json.numV (intToChars d.replies), 1),
     ("quotes".toList, intToChars d.quotes, Json.numV (intToChars d.quotes), 1),
     ("bookmarks".toList, intToChars d.bookmarks, Json.numV (intToChars d.bookmarks), 1),
     ("views".toList, optIntText d.views, optIntJson d.views, 1)]
    (by
      intro sp hsp
      simp only [List.mem_cons, List.not_mem_nil, or_false] at hsp
      rcases hsp with rfl | rfl | rfl | rfl | rfl | rfl
      · exact valueEnc_num d.favorites
      · exact valueEnc_num d.retweets
      · exact valueEnc_num d.replies
      · exact valueEnc_num d.quotes
      · exact valueEnc_num d.bookmarks
      · exact valueEnc_optInt d.views)
  have hcontext := valueEnc_obj
    [("in_reply_to".toList, optStrText d.in_reply_to, optStrJson d.in_reply_to, 1),
     ("retweeted_status".toList, optStrText d.retweeted_status, optStrJson d.retweeted_status, 1),
     ("quoted_status".toList, optStrText d.quoted_status, optStrJson d.quoted_status, 1)]
    (by
      intro sp hsp
      simp only [List.mem_cons, List.not_mem_nil, or_false] at hsp
      rcases hsp with rfl | rfl | rfl
      · exact valueEnc_optStr d.in_reply_to
      · exact valueEnc_optStr d.retweeted_status
      · exact valueEnc_optStr d.quoted_status)
  have htop := valueEnc_obj
    [("id".toList, strText d.id, Json.strV d.id, 1),
     ("created_at".toList, strText d.created_at, Json.strV d.created_at, 1),
     ("screen_name".toList, strText d.screen_name, Json.strV d.screen_name, 1),
     ("name".toList, strText d.name, Json.strV d.name, 1),
     ("text".toList, strText d.text, Json.strV d.text, 1),
     ("url".toList, strText d.url, Json.strV d.url, 1),
     ("media".toList, arrText (d.media.map strText),
       Json.arrV (d.media.map Json.strV), d.media.length + 4),
     ("metrics".toList,
       objText
         [("favorites".toList, intToChars d.favorites),
          ("retweets".toList, intToChars d.retweets),
          ("replies".toList, intToChars d.replies),
          ("quotes".toList, intToChars d.quotes),
          ("bookmarks".toList, intToChars d.bookmarks),
          ("views".toList, optIntText d.views)],
       Json.objV
         [("favorites".toList, Json.numV (intToChars d.favorites)),
          ("retweets".toList, Json.numV (intToChars d.retweets)),
          ("replies".toList, Json.numV (intToChars d.replies)),
          ("quotes".toList, Json.numV (intToChars d.quotes)),
          ("bookmarks".toList, Json.numV (intToChars d.bookmarks)),
          ("views".toList, optIntJson d.views)], 15),
     ("context".toList,
       objText
         [("in_reply_to".toList, optStrText d.in_reply_to),
          ("retweeted_status".toList, optStrText d.retweeted_status),
          ("quoted_status".toList, optStrText d.quoted_status)],
       Json.objV
         [("in_reply_to".toList, optStrJson d.in_reply_to),
          ("retweeted_status".toList, optStrJson d.retweeted_status),
          ("quoted_status".toList, optStrJson d.quoted_status)], 9),
     ("source".toList, strText "home_timeline".toList,
       Json.strV "home_timeline".toList, 1)]
    (by
      intro sp hsp
      simp only [List.mem_cons, List.not_mem_nil, or_false] at hsp
      rcases hsp with rfl | rfl | rfl | rfl | rfl | rfl | rfl | rfl | rfl | rfl
      · exact valueEnc_str d.id
      · exact valueEnc_str d.created_at
      · exact valueEnc_str d.screen_name
      · exact valueEnc_str d.name
      · exact valueEnc_str d.text
      · exact valueEnc_str d.url
      · exact valueEnc_arr_str d.media
      · exact hmetrics
      · exact hcontext
      · exact valueEnc_str "home_timeline".toList)
  refine valueEnc_mono htop ?_
  simp only [List.map_cons, List.map_nil, List.sum_cons, List.sum_nil]
  omega

theorem elemsText_strs_len (l : List Chars) :
    l.length + 1 ≤ (elemsText (l.map strText)).length := by
  induction l with
  | nil => simp [elemsText]
  | cons s rest ih =>
    cases rest with
    | nil => simp [elemsText, strText]
    | cons s1 rest' =>
      have h2 : 2 ≤ (strText s).length := by
        simp [strText, List.length_cons, List.length_append]
      simp only [List.map_cons, elemsText, List.length_append, List.length_cons] at ih ⊢
      omega

theorem serializeDoc_length_ge (d : ObsidianDoc) :
    d.media.length + 47 ≤ (serializeDoc d).length := by
  have hmedia := elemsText_strs_len d.media
  simp only [serializeDoc, objText, membersText, arrText, strText,
    List.length_cons, List.length_append, List.length_nil]
  omega

theorem runParse_serializeDoc (d : ObsidianDoc) :
    runParse (serializeDoc d) = some (docJson d) := by
  unfold runParse
  have hv := valueEnc_doc d ((serializeDoc d).length + 1) []
    (by have := serializeDoc_length_ge d; omega) rfl
  rw [List.append_nil] at hv
  rw [hv]
  rfl

theorem dropWhile_eq_self {p : Char → Bool} {l : Chars} {c : Char}
    (h : l.head? = some c) (hp : p c = false) : l.dropWhile p = l := by
  cases l with
  | nil => rfl
  | cons x xs =>
    simp only [List.head?_cons, Option.some_inj] at h
    subst h
    simp [List.dropWhile_cons, hp]

theorem jsTrim_eq {s : Chars} {c c' : Char} (h1 : s.head? = some c)
    (hw1 : isWsCh c = false) (h2 : s.getLast? = some c') (hw2 : isWsCh c' = false) :
    jsTrim s = s := by
  unfold jsTrim
  rw [dropWhile_eq_self h1 hw1]
  rw [dropWhile_eq_self (by rw [List.head?_reverse]; exact h2) hw2]
  exact List.reverse_reverse s

theorem membersText_getLast (ms : List (Chars × Chars)) :
    (membersText ms).getLast? = some '\x7d' := by
  induction ms with
  | nil => rfl
  | cons kt rest ih =>
    cases rest with
    | nil =>
      show (strText kt.1 ++ ':' :: kt.2 ++ ['\x7d']).getLast? = _
      simp [List.getLast?_append, List.getLast?_cons]
    | cons kt2 rest' =>
      show (strText kt.1 ++ ':' :: kt.2 ++ ',' :: membersText (kt2 :: rest')).getLast? = _
      have hne : membersText (kt2 :: rest') ≠ [] := by
        intro hc
        rw [hc] at ih
        exact absurd ih (by simp)
      simp [List.getLast?_append, List.getLast?_cons, ih]

theorem serializeDoc_getLast (d : ObsidianDoc) :
    (serializeDoc d).getLast? = some '\x7d' := by
  show ('\x7b' :: membersText _).getLast? = _
  rw [List.getLast?_cons, membersText_getLast]
  rfl

theorem serializeDoc_trim (d : ObsidianDoc) : jsTrim (serializeDoc d) = serializeDoc d :=
  @jsTrim_eq (serializeDoc d) '\x7b' '\x7d' rfl rfl (serializeDoc_getLast d) rfl

theorem lineIdOf_serializeDoc (d : ObsidianDoc) :
    lineIdOf (serializeDoc d) = some d.id := by
  unfold lineIdOf
  rw [serializeDoc_trim]
  rw [if_neg (show ¬(serializeDoc d = []) by
    intro hc
    have := congrArg List.length hc
    simp only [serializeDoc, objText, List.length_cons, List.length_nil] at this
    omega)]
  rw [runParse_serializeDoc]
  rfl

theorem hexChar_ne_nl (n : Nat) (h : n < 16) : ¬(hexChar n = '\n') := by
  interval_cases n <;> decide

theorem escBody_no_nl (s : Chars) : ¬('\n' ∈ escBody s) := by
  induction s with
  | nil => simp [escBody]
  | cons c s' ih =>
    by_cases h1 : c = '"'
    · subst h1; simp [escBody, ih]
    · by_cases h2 : c = '\\'
      · subst h2; simp [escBody, ih]
      · by_cases h3 : c = '\x08'
        · subst h3; simp [escBody, ih]
        · by_cases h4 : c = '\x0c'
          · subst h4; simp [escBody, ih]
          · by_cases h5 : c = '\n'
            · subst h5; simp [escBody, ih]
            · by_cases h6 : c = '\r'
              · subst h6; simp [escBody, ih]
              · by_cases h7 : c = '\t'
                · subst h7; simp [escBody, ih]
                · by_cases h8 : c.toNat < 32
                  · simp only [escBody, if_neg h1, if_neg h2, if_neg h3, if_neg h4,
                      if_neg h5, if_neg h6, if_neg h7, if_pos h8]
                    simp only [List.mem_cons]
                    push_neg
                    refine ⟨by decide, by decide, by decide, by decide,
                      fun hc => hexChar_ne_nl _ (by omega) hc.symm,
                      fun hc => hexChar_ne_nl _ (by omega) hc.symm, ih⟩
                  · simp only [escBody, if_neg h1, if_neg h2, if_neg h3, if_neg h4,
                      if_neg h5, if_neg h6, if_neg h7, if_neg h8]
                    simp only [List.mem_cons]
                    push_neg
                    exact ⟨fun hc => h5 hc.symm, ih⟩

theorem strText_no_nl (s : Chars) : ¬('\n' ∈ strText s) := by
  have h := escBody_no_nl s
  simp only [strText, List.mem_cons, List.mem_append, List.mem_singleton]
  push_neg
  exact ⟨⟨by decide, h⟩, by decide⟩

theorem natToChars_no_nl (n : Nat) : ¬('\n' ∈ natToChars n) := by
  intro hc
  have := (natToChars_spec n).2.1 '\n' hc
  exact absurd this (by decide)

theorem intToChars_no_nl (i : Int) : ¬('\n' ∈ intToChars i) := by
  unfold intToChars
  split
  · simp only [List.mem_cons]
    push_neg
    exact ⟨by decide, natToChars_no_nl _⟩
  · exact natToChars_no_nl _

theorem optStrText_no_nl (o : Option Chars) : ¬('\n' ∈ optStrText o) := by
  cases o with
  | none => decide
  | some s => exact strText_no_nl s

theorem optIntText_no_nl (o : Option Int) : ¬('\n' ∈ optIntText o) := by
  cases o with
  | none => decide
  | some i => exact intToChars_no_nl i

theorem elemsText_no_nl (ts : List Chars) (h : ∀ t ∈ ts, ¬('\n' ∈ t)) :
    ¬('\n' ∈ elemsText ts) := by
  induction ts with
  | nil => decide
  | cons t rest ih =>
    have ht := h t (List.mem_cons_self _ _)
    have hrest := ih (fun x hx => h x (List.mem_cons_of_mem _ hx))
    cases rest with
    | nil =>
      simp only [elemsText, List.mem_append, List.mem_singleton]
      push_neg
      exact ⟨ht, by decide⟩
    | cons t2 rest' =>
      simp only [elemsText, List.mem_append, List.mem_cons]
      push_neg
      exact ⟨ht, by decide, hrest⟩

theorem membersText_no_nl (ms : List (Chars × Chars)) (h : ∀ m ∈ ms, ¬('\n' ∈ m.2)) :
    ¬('\n' ∈ membersText ms) := by
  induction ms with
  | nil => decide
  | cons kt rest ih =>
    have hk := strText_no_nl kt.1
    have hv := h kt (List.mem_cons_self _ _)
    have hrest := ih (fun x hx => h x (List.mem_cons_of_mem _ hx))
    cases rest with
    | nil =>
      show ¬('\n' ∈ strText kt.1 ++ ':' :: kt.2 ++ ['\x7d'])
      simp only [List.mem_append, List.mem_cons, List.mem_singleton]
      push_neg
      exact ⟨⟨hk, by decide, hv⟩, by decide⟩
    | cons kt2 rest' =>
      show ¬('\n' ∈ strText kt.1 ++ ':' :: kt.2 ++ ',' :: membersText (kt2 :: rest'))
      simp only [List.mem_append, List.mem_cons]
      push_neg
      exact ⟨⟨hk, by decide, hv⟩, by decide, hrest⟩

theorem serializeDoc_no_nl (d : ObsidianDoc) : ¬('\n' ∈ serializeDoc d) := by
  show ¬('\n' ∈ '\x7b' :: membersText _)
  simp only [List.mem_cons]
  push_neg
  refine ⟨by decide, membersText_no_nl _ ?_⟩
  intro m hm
  simp only [List.mem_cons, List.not_mem_nil, or_false] at hm
  rcases hm with rfl | rfl | rfl | rfl | rfl | rfl | rfl | rfl | rfl | rfl <;>
    first
    | exact strText_no_nl _
    | (show ¬('\n' ∈ '[' :: elemsText _)
       simp only [List.mem_cons]
       push_neg
       refine ⟨by decide, elemsText_no_nl _ ?_⟩
       intro t ht
       rcases List.mem_map.mp ht with ⟨x, _, rfl⟩
       exact strText_no_nl x)
    | (show ¬('\n' ∈ '\x7b' :: membersText _)
       simp only [List.mem_cons]
       push_neg
       refine ⟨by decide, membersText_no_nl _ ?_⟩
       intro m2 hm2
       simp only [List.mem_cons, List.not_mem_nil, or_false] at hm2
       rcases hm2 with rfl | rfl | rfl | rfl | rfl | rfl <;>
         first
         | exact intToChars_no_nl _
         | exact optIntText_no_nl _
         | exact optStrText_no_nl _)
    | (show ¬('\n' ∈ '\x7b' :: membersText _)
       simp only [List.mem_cons]
       push_neg
       refine ⟨by decide, membersText_no_nl _ ?_⟩
       intro m2 hm2
       simp only [List.mem_cons, List.not_mem_nil, or_false] at hm2
       rcases hm2 with rfl | rfl | rfl <;> exact optStrText_no_nl _)

theorem splitNl_ne_nil (s : Chars) : splitNl s ≠ [] := by
  cases s with
  | nil => simp [splitNl]
  | cons c r =>
    simp only [splitNl]
    split
    · simp
    · split <;> simp

theorem splitNl_append_nl (a b : Chars) :
    splitNl (a ++ '\n' :: b) = splitNl a ++ splitNl b := by
  induction a with
  | nil => simp [splitNl]
  | cons c r ih =>
    by_cases hc : c = '\n'
    · subst hc
      simp only [List.cons_append, splitNl, if_pos rfl, List.cons_append, if_true]
      simp only [List.append_eq]
      rw [ih]
    · simp only [List.cons_append, splitNl, if_neg hc]
      simp only [List.append_eq]
      rw [ih]
      cases hsr : splitNl r with
      | nil => exact absurd hsr (splitNl_ne_nil r)
      | cons h t => simp

theorem splitNl_no_nl (a : Chars) (h : ¬('\n' ∈ a)) : splitNl a = [a] := by
  induction a with
  | nil => rfl
  | cons c r ih =>
    have hc : ¬(c = '\n') := fun hcc => h (hcc ▸ List.mem_cons_self _ _)
    have hr : ¬('\n' ∈ r) := fun hrr => h (List.mem_cons_of_mem _ hrr)
    simp only [splitNl, if_neg hc, ih hr]

theorem extract_append_nl (a b : Chars) :
    extractExistingIds (a ++ '\n' :: b)
      = extractExistingIds a ++ extractExistingIds b := by
  unfold extractExistingIds
  rw [splitNl_append_nl, List.filterMap_append]

theorem extract_nil : extractExistingIds [] = [] := rfl

theorem extract_doc_lines (docs : List ObsidianDoc) :
    extractExistingIds (joinSep '\n' (docs.map serializeDoc) ++ ['\n'])
      = docs.map (fun d => d.id) := by
  have hnil : lineIdOf [] = none := rfl
  induction docs with
  | nil => rfl
  | cons d rest ih =>
    cases rest with
    | nil =>
      show extractExistingIds (serializeDoc d ++ '\n' :: []) = _
      rw [extract_append_nl]
      unfold extractExistingIds
      rw [splitNl_no_nl _ (serializeDoc_no_nl d)]
      simp [lineIdOf_serializeDoc d, splitNl, hnil]
    | cons d2 rest' =>
      show extractExistingIds
          ((serializeDoc d ++ '\n' :: joinSep '\n' ((d2 :: rest').map serializeDoc))
            ++ ['\n']) = _
      have heq : (serializeDoc d ++ '\n' :: joinSep '\n' ((d2 :: rest').map serializeDoc))
            ++ ['\n']
          = serializeDoc d ++ '\n' ::
              (joinSep '\n' ((d2 :: rest').map serializeDoc) ++ ['\n']) := by
        simp
      rw [heq, extract_append_nl, ih]
      unfold extractExistingIds
      rw [splitNl_no_nl _ (serializeDoc_no_nl d)]
      simp [lineIdOf_serializeDoc d]


theorem endsWithNl_decomp (s : Chars) (h : endsWithNl s = true) :
    ∃ e, s = e ++ ['\n'] := by
  unfold endsWithNl at h
  simp only [decide_eq_true_eq] at h
  cases hs : s.reverse with
  | nil =>
    rw [← List.reverse_reverse s, hs] at h
    simp at h
  | cons c rest =>
    have hsr : s = rest.reverse ++ [c] := by
      rw [← List.reverse_reverse s, hs]
      simp
    rw [hsr, List.getLast?_append] at h
    have hc : some c = some '\n' := h
    have hcc : c = '\n' := by injection hc
    exact ⟨rest.reverse, by rw [hsr, hcc]⟩

theorem extract_combined (existing newpart : Chars) :
    extractExistingIds
        (existing ++
          ((if existing ≠ [] ∧ ¬(endsWithNl existing = true) then ['\n'] else []) ++ newpart))
      = extractExistingIds existing ++ extractExistingIds newpart := by
  by_cases hnil : existing = []
  · subst hnil
    simp [extract_nil]
  · by_cases hend : endsWithNl existing = true
    · rw [if_neg (by simp [hnil, hend])]
      obtain ⟨e, rfl⟩ := endsWithNl_decomp existing hend
      have h1 : (e ++ ['\n']) ++ ([] ++ newpart) = e ++ '\n' :: newpart := by simp
      have h2 : e ++ ['\n'] = e ++ '\n' :: ([] : Chars) := rfl
      rw [h1, extract_append_nl, h2, extract_append_nl, extract_nil]
      simp
    · rw [if_pos ⟨hnil, hend⟩]
      have h1 : existing ++ (['\n'] ++ newpart) = existing ++ '\n' :: newpart := rfl
      rw [h1, extract_append_nl]

theorem lookupA_upsert_self {β : Type} (files : List (Chars × β)) (p : Chars) (c : β) :
    lookupA (upsertByKey (fun q => q.1) (p, c) files) p = some c := by
  induction files with
  | nil => simp [upsertByKey, lookupA, List.find?]
  | cons x xs ih =>
    simp only [upsertByKey]
    by_cases h : x.1 = p
    · rw [if_pos h]
      simp [lookupA, List.find?]
    · rw [if_neg h]
      simp only [lookupA, List.find?] at ih ⊢
      rw [decide_eq_false h]
      exact ih

theorem lookupA_upsert_other {β : Type} (files : List (Chars × β)) (p q : Chars) (c : β)
    (h : ¬(q = p)) :
    lookupA (upsertByKey (fun x => x.1) (p, c) files) q = lookupA files q := by
  have hpq : ¬(p = q) := fun hc => h hc.symm
  induction files with
  | nil =>
    simp only [upsertByKey, lookupA, List.find?, decide_eq_false hpq]
  | cons x xs ih =>
    simp only [upsertByKey]
    by_cases hx : x.1 = p
    · rw [if_pos hx]
      have hxq : ¬(x.1 = q) := fun hc => hpq (hx ▸ hc)
      simp only [lookupA, List.find?, decide_eq_false hpq, decide_eq_false hxq]
    · rw [if_neg hx]
      simp only [lookupA, List.find?] at ih ⊢
      cases hq : decide (x.1 = q) with
      | true => simp
      | false => simpa [hq] using ih

theorem processBucket_write_sep (folder key e : Chars) (items : List ObsidianDoc)
    (sum : SyncSummary) (v : Vault)
    (hget : vaultGet v (bucketPath folder key) = Except.ok (ObsResp.mk 200 e))
    (hne : (items.filter
        (fun it => !((extractExistingIds e).contains it.id))).isEmpty = false) :
    lookupA (processBucket folder (sum, v) (key, items)).2.files (bucketPath folder key)
      = some ((e ++ (if e ≠ [] ∧ ¬(endsWithNl e = true) then ['\n'] else [])) ++
            (joinSep '\n' ((items.filter
              (fun it => !((extractExistingIds e).contains it.id))).map serializeDoc)
              ++ ['\n'])) := by
  simp only [processBucket, hget]
  rw [if_pos (show ((200 : Int) = 404 ∨ isOkStatus 200 = true) by norm_num [isOkStatus])]
  rw [if_neg (show ¬((200 : Int) = 404) by norm_num)]
  rw [if_neg (show ¬((items.filter
      (fun it => !((extractExistingIds e).contains it.id))).isEmpty = true) by
    rw [hne]; simp)]
  rw [if_pos (show isOkStatus (vaultPut v (bucketPath folder key)
      ((e ++ (if e ≠ [] ∧ ¬(endsWithNl e = true) then ['\n'] else [])) ++
        (joinSep '\n' ((items.filter
          (fun it => !((extractExistingIds e).contains it.id))).map serializeDoc)
          ++ ['\n']))).1.status = true from rfl)]
  exact lookupA_upsert_self _ _ _

/-- Claim C7: a bucket whose remote content is one line with id "1" plus a
trailing newline, merged with new documents with ids "1" and "2", yields
skipped = 1 and synced = 1, and the written content is the old content plus
one serialized document line, ending in a trailing newline (two non-blank
lines); in general the written content inserts a separating newline before
the appended document lines exactly when the existing content is non-empty
and lacks a trailing newline. -/
theorem claim_C7_append_scenario :
    ((syncCore [twFix "1".toList "86400000".toList, twFix "2".toList "86400000".toList]
        OBSIDIAN_DEFAULT_FOLDER vaultFix).1 = SyncSummary.mk 2 1 1 1 []) ∧
    contentAt (syncCore [twFix "1".toList "86400000".toList, twFix "2".toList "86400000".toList]
        OBSIDIAN_DEFAULT_FOLDER vaultFix).2 bpFix
      = "\x7b\"id\":\"1\"\x7d\n".toList
          ++ (serializeDoc (toObsidianTweet (twFix "2".toList "86400000".toList)) ++ ['\n']) ∧
    ((splitNl (contentAt (syncCore [twFix "1".toList "86400000".toList,
        twFix "2".toList "86400000".toList] OBSIDIAN_DEFAULT_FOLDER vaultFix).2 bpFix)).filter
      (fun l => !(l.isEmpty))).length = 2 ∧
    endsWithNl (contentAt (syncCore [twFix "1".toList "86400000".toList,
        twFix "2".toList "86400000".toList] OBSIDIAN_DEFAULT_FOLDER vaultFix).2 bpFix) = true ∧
    (∀ (folder key e : Chars) (items : List ObsidianDoc) (sum : SyncSummary) (v : Vault),
      vaultGet v (bucketPath folder key) = Except.ok (ObsResp.mk 200 e) →
      (items.filter
          (fun it => !((extractExistingIds e).contains it.id))).isEmpty = false →
      lookupA (processBucket folder (sum, v) (key, items)).2.files (bucketPath folder key)
        = some ((e ++ (if e ≠ [] ∧ ¬(endsWithNl e = true) then ['\n'] else [])) ++
              (joinSep '\n' ((items.filter
                (fun it => !((extractExistingIds e).contains it.id))).map serializeDoc)
                ++ ['\n']))) := by
  refine ⟨by decide, by decide, by decide, by decide, processBucket_write_sep⟩

/-- Claim C7, witness: the general separator statement applied to the
concrete bucket of the scenario — the existing content ends with a newline,
so no separating newline is inserted. -/
theorem claim_C7_witness :
    lookupA (processBucket OBSIDIAN_DEFAULT_FOLDER
        (SyncSummary.mk 1 0 0 0 [], vaultFix)
        ("1970-01-02".toList,
          [toObsidianTweet (twFix "2".toList "86400000".toList)])).2.files bpFix
      = some (("\x7b\"id\":\"1\"\x7d\n".toList ++
            (if "\x7b\"id\":\"1\"\x7d\n".toList ≠ ([] : Chars) ∧
                ¬(endsWithNl ("\x7b\"id\":\"1\"\x7d\n".toList) = true) then ['\n'] else [])) ++
          (joinSep '\n' (([toObsidianTweet (twFix "2".toList "86400000".toList)].filter
            (fun it => !((extractExistingIds ("\x7b\"id\":\"1\"\x7d\n".toList)).contains
              it.id))).map serializeDoc) ++ ['\n'])) :=
  claim_C7_append_scenario.2.2.2.2 OBSIDIAN_DEFAULT_FOLDER "1970-01-02".toList
    ("\x7b\"id\":\"1\"\x7d\n".toList)
    [toObsidianTweet (twFix "2".toList "86400000".toList)]
    (SyncSummary.mk 1 0 0 0 []) vaultFix rfl (by decide)

theorem containsChars_iff (l : List Chars) (x : Chars) : l.contains x = true ↔ x ∈ l := by
  simp

theorem vaultGet_honest (v : Vault) (h : v.getOverride = []) (p : Chars) :
    vaultGet v p = (match lookupA v.files p with
      | some c => Except.ok (ObsResp.mk 200 c)
      | none => Except.ok (ObsResp.mk 404 [])) := by
  unfold vaultGet
  rw [h]
  rfl

theorem pb_hit (folder : Chars) (sum : SyncSummary) (v : Vault)
    (k : Chars) (items : List ObsidianDoc) (c : Chars)
    (hov : v.getOverride = []) (hfile : lookupA v.files (bucketPath folder k) = some c) :
    processBucket folder (sum, v) (k, items) = pbAfterGet folder sum v k items c := by
  simp only [processBucket]
  rw [vaultGet_honest v hov, hfile]
  rfl

theorem pb_miss (folder : Chars) (sum : SyncSummary) (v : Vault)
    (k : Chars) (items : List ObsidianDoc)
    (hov : v.getOverride = []) (hfile : lookupA v.files (bucketPath folder k) = none) :
    processBucket folder (sum, v) (k, items) = pbAfterGet folder sum v k items [] := by
  simp only [processBucket]
  rw [vaultGet_honest v hov, hfile]
  rfl

theorem pb_honest (folder : Chars) (sum : SyncSummary) (v : Vault)
    (k : Chars) (items : List ObsidianDoc) (hov : v.getOverride = []) :
    processBucket folder (sum, v) (k, items)
      = pbAfterGet folder sum v k items (contentAt v (bucketPath folder k)) := by
  cases hfile : lookupA v.files (bucketPath folder k) with
  | some c =>
    rw [pb_hit folder sum v k items c hov hfile]
    unfold contentAt
    rw [hfile]
    rfl
  | none =>
    rw [pb_miss folder sum v k items hov hfile]
    unfold contentAt
    rw [hfile]
    rfl

theorem pb_saturated (folder : Chars) (sum : SyncSummary) (v : Vault)
    (k : Chars) (items : List ObsidianDoc)
    (hov : v.getOverride = []) (hsat : saturatedFor folder v (k, items)) :
    processBucket folder (sum, v) (k, items)
      = ({ sum with skipped := sum.skipped + items.length }, v) := by
  unfold saturatedFor at hsat
  simp only [] at hsat
  rw [pb_honest folder sum v k items hov]
  have hnew : pbNew items (contentAt v (bucketPath folder k)) = [] := by
    apply List.filter_eq_nil_iff.mpr
    intro d hd
    have hmem := hsat d hd
    simp [containsChars_iff, hmem]
  unfold pbAfterGet
  rw [hnew]
  simp

theorem pbNew_len_le (items : List ObsidianDoc) (e : Chars) :
    (pbNew items e).length ≤ items.length :=
  List.length_filter_le _ _

theorem pbAfterGet_accounting (folder : Chars) (sum : SyncSummary) (v : Vault)
    (k : Chars) (items : List ObsidianDoc) (e : Chars) :
    (pbAfterGet folder sum v k items e).1.skipped + (pbAfterGet folder sum v k items e).1.synced
        = sum.skipped + sum.synced + items.length
      ∧ (pbAfterGet folder sum v k items e).1.errors = sum.errors
      ∧ (pbAfterGet folder sum v k items e).1.total = sum.total := by
  unfold pbAfterGet
  have hle := pbNew_len_le items e
  by_cases hemp : (pbNew items e).isEmpty = true
  · rw [if_pos hemp]
    have h0 : (pbNew items e).length = 0 := by
      rw [List.isEmpty_iff] at hemp
      rw [hemp]
      rfl
    refine ⟨?_, rfl, rfl⟩
    simp only []
    omega
  · rw [if_neg hemp]
    refine ⟨?_, rfl, rfl⟩
    simp only []
    omega

theorem pbAfterGet_override (folder : Chars) (sum : SyncSummary) (v : Vault)
    (k : Chars) (items : List ObsidianDoc) (e : Chars) :
    (pbAfterGet folder sum v k items e).2.getOverride = v.getOverride := by
  unfold pbAfterGet
  by_cases hemp : (pbNew items e).isEmpty = true
  · rw [if_pos hemp]
  · rw [if_neg hemp]
    rfl

theorem pbAfterGet_frame (folder : Chars) (sum : SyncSummary) (v : Vault)
    (k : Chars) (items : List ObsidianDoc) (e : Chars) (p : Chars)
    (hp : p ≠ bucketPath folder k) :
    contentAt (pbAfterGet folder sum v k items e).2 p = contentAt v p := by
  unfold pbAfterGet
  by_cases hemp : (pbNew items e).isEmpty = true
  · rw [if_pos hemp]
  · rw [if_neg hemp]
    unfold contentAt vaultPut
    simp only []
    rw [lookupA_upsert_other v.files (bucketPath folder k) p (pbCombined items e) hp]

theorem pbAfterGet_saturates (folder : Chars) (sum : SyncSummary) (v : Vault)
    (k : Chars) (items : List ObsidianDoc) (e : Chars)
    (he : contentAt v (bucketPath folder k) = e) :
    saturatedFor folder (pbAfterGet folder sum v k items e).2 (k, items) := by
  unfold saturatedFor
  simp only []
  unfold pbAfterGet
  by_cases hemp : (pbNew items e).isEmpty = true
  · rw [if_pos hemp]
    intro d hd
    rw [List.isEmpty_iff] at hemp
    have hcon : ((extractExistingIds e).contains d.id) = true := by
      by_contra hnc
      have hnc2 : d.id ∉ extractExistingIds e :=
        fun hm => hnc ((containsChars_iff _ _).mpr hm)
      have hdmem : d ∈ pbNew items e := by
        unfold pbNew
        rw [List.mem_filter]
        exact ⟨hd, by simpa using hnc2⟩
      rw [hemp] at hdmem
      exact absurd hdmem (List.not_mem_nil _)
    rw [he]
    exact (containsChars_iff _ _).mp hcon
  · rw [if_neg hemp]
    intro d hd
    have hcnew : contentAt
        (vaultPut v (bucketPath folder k) (pbCombined items e)).2
          (bucketPath folder k) = pbCombined items e := by
      unfold contentAt vaultPut
      simp only []
      rw [lookupA_upsert_self]
      rfl
    show d.id ∈ extractExistingIds (contentAt
        ((vaultPut v (bucketPath folder k) (pbCombined items e)).2) (bucketPath folder k))
    rw [hcnew]
    have hsplit : extractExistingIds (pbCombined items e)
        = extractExistingIds e ++ (pbNew items e).map (fun d => d.id) := by
      unfold pbCombined
      rw [List.append_assoc, extract_combined, extract_doc_lines]
    rw [hsplit]
    by_cases hcon : ((extractExistingIds e).contains d.id) = true
    · exact List.mem_append_left _ ((containsChars_iff _ _).mp hcon)
    · apply List.mem_append_right
      apply List.mem_map_of_mem
      unfold pbNew
      rw [List.mem_filter]
      have hcon2 : d.id ∉ extractExistingIds e :=
        fun hm => hcon ((containsChars_iff _ _).mpr hm)
      exact ⟨hd, by simpa using hcon2⟩

theorem pbh_override (folder : Chars) (sum : SyncSummary) (v : Vault)
    (k : Chars) (items : List ObsidianDoc) (hov : v.getOverride = []) :
    (processBucket folder (sum, v) (k, items)).2.getOverride = [] := by
  rw [pb_honest folder sum v k items hov, pbAfterGet_override]
  exact hov

theorem fold_pb_override (folder : Chars) :
    ∀ (bs : List (Chars × List ObsidianDoc)) (sum : SyncSummary) (v : Vault),
      v.getOverride = [] →
      ((bs.foldl (processBucket folder) (sum, v)).2).getOverride = [] := by
  intro bs
  induction bs with
  | nil => intro sum v hov; exact hov
  | cons b rest ih =>
    intro sum v hov
    rcases b with ⟨k, items⟩
    rcases hpb : processBucket folder (sum, v) (k, items) with ⟨s', v'⟩
    have h2 : (processBucket folder (sum, v) (k, items)).2.getOverride = [] :=
      pbh_override folder sum v k items hov
    rw [hpb] at h2
    show ((rest.foldl (processBucket folder) (processBucket folder (sum, v) (k, items))).2).getOverride = []
    rw [hpb]
    exact ih s' v' h2

theorem fold_pb_frame (folder : Chars) :
    ∀ (bs : List (Chars × List ObsidianDoc)) (sum : SyncSummary) (v : Vault) (p : Chars),
      v.getOverride = [] →
      (∀ b ∈ bs, p ≠ bucketPath folder b.1) →
      contentAt ((bs.foldl (processBucket folder) (sum, v)).2) p = contentAt v p := by
  intro bs
  induction bs with
  | nil => intro sum v p _ _; rfl
  | cons b rest ih =>
    intro sum v p hov hdist
    rcases b with ⟨k, items⟩
    rcases hpb : processBucket folder (sum, v) (k, items) with ⟨s', v'⟩
    have h2 : (processBucket folder (sum, v) (k, items)).2.getOverride = [] :=
      pbh_override folder sum v k items hov
    rw [hpb] at h2
    have hframe : contentAt v' p = contentAt v p := by
      have h3 : contentAt (processBucket folder (sum, v) (k, items)).2 p = contentAt v p := by
        rw [pb_honest folder sum v k items hov]
        exact pbAfterGet_frame folder sum v k items _ p
          (hdist (k, items) (List.mem_cons_self _ _))
      rw [hpb] at h3
      exact h3
    show contentAt ((rest.foldl (processBucket folder) (processBucket folder (sum, v) (k, items))).2) p
      = contentAt v p
    rw [hpb]
    rw [ih s' v' p h2 (fun b hb => hdist b (List.mem_cons_of_mem _ hb))]
    exact hframe

theorem fold_saturates (folder : Chars) :
    ∀ (bs : List (Chars × List ObsidianDoc)) (sum : SyncSummary) (v : Vault),
      v.getOverride = [] →
      (bs.map (fun b => bucketPath folder b.1)).Nodup →
      ∀ b ∈ bs, saturatedFor folder ((bs.foldl (processBucket folder) (sum, v)).2) b := by
  intro bs
  induction bs with
  | nil => intro sum v _ _ b hb; exact absurd hb (List.not_mem_nil _)
  | cons b0 rest ih =>
    rcases b0 with ⟨k, items⟩
    intro sum v hov hnd b hb
    rcases hpb : processBucket folder (sum, v) (k, items) with ⟨s', v'⟩
    have h2 : (processBucket folder (sum, v) (k, items)).2.getOverride = [] :=
      pbh_override folder sum v k items hov
    rw [hpb] at h2
    rw [List.map_cons, List.nodup_cons] at hnd
    rcases hnd with ⟨hnotmem, hndrest⟩
    rcases List.mem_cons.mp hb with hb1 | hb1
    · subst hb1
      have hsat0 : saturatedFor folder v' (k, items) := by
        have h3 : saturatedFor folder (processBucket folder (sum, v) (k, items)).2 (k, items) := by
          rw [pb_honest folder sum v k items hov]
          exact pbAfterGet_saturates folder sum v k items _ rfl
        rw [hpb] at h3
        exact h3
      have hdist : ∀ b' ∈ rest, bucketPath folder k ≠ bucketPath folder b'.1 := by
        intro b' hb' heq
        exact hnotmem (heq ▸ List.mem_map_of_mem (fun b => bucketPath folder b.1) hb')
      unfold saturatedFor at hsat0 ⊢
      intro d hd
      have hfr : contentAt ((((k, items) :: rest).foldl (processBucket folder) (sum, v)).2)
          (bucketPath folder (k, items).1)
          = contentAt v' (bucketPath folder (k, items).1) := by
        show contentAt ((rest.foldl (processBucket folder)
            (processBucket folder (sum, v) (k, items))).2) (bucketPath folder (k, items).1)
          = contentAt v' (bucketPath folder (k, items).1)
        rw [hpb]
        exact fold_pb_frame folder rest s' v' _ h2 hdist
      rw [hfr]
      exact hsat0 d hd
    · have hsat := ih s' v' h2 hndrest b hb1
      show saturatedFor folder ((rest.foldl (processBucket folder)
          (processBucket folder (sum, v) (k, items))).2) b
      rw [hpb]
      exact hsat

theorem fold_saturated (folder : Chars) :
    ∀ (bs : List (Chars × List ObsidianDoc)) (sum : SyncSummary) (v : Vault),
      v.getOverride = [] →
      (∀ b ∈ bs, saturatedFor folder v b) →
      bs.foldl (processBucket folder) (sum, v)
        = ({ sum with skipped := sum.skipped + bucketsLen bs }, v) := by
  intro bs
  induction bs with
  | nil =>
    intro sum v _ _
    rfl
  | cons b0 rest ih =>
    rcases b0 with ⟨k, items⟩
    intro sum v hov hsat
    show rest.foldl (processBucket folder) (processBucket folder (sum, v) (k, items))
      = _
    rw [pb_saturated folder sum v k items hov (hsat (k, items) (List.mem_cons_self _ _))]
    rw [ih _ v hov (fun b hb => hsat b (List.mem_cons_of_mem _ hb))]
    unfold bucketsLen
    simp [List.map_cons, List.sum_cons, Nat.add_assoc]

theorem fold_accounting (folder : Chars) :
    ∀ (bs : List (Chars × List ObsidianDoc)) (sum : SyncSummary) (v : Vault),
      v.getOverride = [] →
      (bs.foldl (processBucket folder) (sum, v)).1.skipped
          + (bs.foldl (processBucket folder) (sum, v)).1.synced
          = sum.skipped + sum.synced + bucketsLen bs
        ∧ (bs.foldl (processBucket folder) (sum, v)).1.errors = sum.errors
        ∧ (bs.foldl (processBucket folder) (sum, v)).1.total = sum.total := by
  intro bs
  induction bs with
  | nil =>
    intro sum v _
    exact ⟨by unfold bucketsLen; simp, rfl, rfl⟩
  | cons b0 rest ih =>
    rcases b0 with ⟨k, items⟩
    intro sum v hov
    rcases hpb : processBucket folder (sum, v) (k, items) with ⟨s', v'⟩
    have h2 : (processBucket folder (sum, v) (k, items)).2.getOverride = [] :=
      pbh_override folder sum v k items hov
    rw [hpb] at h2
    have hacc : s'.skipped + s'.synced = sum.skipped + sum.synced + items.length
        ∧ s'.errors = sum.errors ∧ s'.total = sum.total := by
      have h3 := pbAfterGet_accounting folder sum v k items
        (contentAt v (bucketPath folder k))
      rw [← pb_honest folder sum v k items hov, hpb] at h3
      exact h3
    have hrest := ih s' v' h2
    have hshow : (((k, items) :: rest).foldl (processBucket folder) (sum, v))
        = rest.foldl (processBucket folder) (s', v') := by
      show rest.foldl (processBucket folder) (processBucket folder (sum, v) (k, items)) = _
      rw [hpb]
    rw [hshow]
    refine ⟨?_, ?_, ?_⟩
    · unfold bucketsLen at hrest ⊢
      simp only [List.map_cons, List.sum_cons]
      omega
    · rw [hrest.2.1, hacc.2.1]
    · rw [hrest.2.2, hacc.2.2]

theorem keys_addToBuckets (bs : List (Chars × List ObsidianDoc)) (key : Chars)
    (d : ObsidianDoc) :
    ∀ x ∈ (addToBuckets bs key d).map Prod.fst, x ∈ bs.map Prod.fst ∨ x = key := by
  induction bs with
  | nil =>
    intro x hx
    simp only [addToBuckets, List.map_cons, List.map_nil, List.mem_singleton] at hx
    exact Or.inr hx
  | cons b rest ih =>
    rcases b with ⟨k, items⟩
    intro x hx
    simp only [addToBuckets] at hx
    by_cases hk : k = key
    · rw [if_pos hk] at hx
      simp only [List.map_cons] at hx
      rcases List.mem_cons.mp hx with hx1 | hx1
      · exact Or.inl (by simp [hx1])
      · exact Or.inl (by simp [hx1])
    · rw [if_neg hk] at hx
      simp only [List.map_cons] at hx
      rcases List.mem_cons.mp hx with hx1 | hx1
      · exact Or.inl (by simp [hx1])
      · rcases ih x hx1 with h | h
        · exact Or.inl (by simp [h])
        · exact Or.inr h

theorem nodup_keys_addToBuckets (bs : List (Chars × List ObsidianDoc)) (key : Chars)
    (d : ObsidianDoc) (hnd : (bs.map Prod.fst).Nodup) :
    ((addToBuckets bs key d).map Prod.fst).Nodup := by
  induction bs with
  | nil => simp [addToBuckets]
  | cons b rest ih =>
    rcases b with ⟨k, items⟩
    simp only [List.map_cons, List.nodup_cons] at hnd
    rcases hnd with ⟨hnotmem, hndrest⟩
    simp only [addToBuckets]
    by_cases hk : k = key
    · rw [if_pos hk]
      simp only [List.map_cons, List.nodup_cons]
      exact ⟨hnotmem, hndrest⟩
    · rw [if_neg hk]
      simp only [List.map_cons, List.nodup_cons]
      refine ⟨?_, ih hndrest⟩
      intro hmem
      rcases keys_addToBuckets rest key d k hmem with h | h
      · exact hnotmem h
      · exact hk h

theorem nodup_keys_groupBuckets (tweets : List Tweet) :
    ((groupBuckets tweets).map Prod.fst).Nodup := by
  unfold groupBuckets
  have haux : ∀ (ts : List Tweet) (bs : List (Chars × List ObsidianDoc)),
      (bs.map Prod.fst).Nodup →
      ((ts.foldl
        (fun bs t =>
          addToBuckets bs
            (formatDateTimeYMD (parseTwitterDateTime ((t.legacy.getD defaultLegacy).created_at)))
            (toObsidianTweet t)) bs).map Prod.fst).Nodup := by
    intro ts
    induction ts with
    | nil => intro bs h; exact h
    | cons t rest ih =>
      intro bs h
      exact ih _ (nodup_keys_addToBuckets bs _ _ h)
  exact haux tweets [] (by simp)

theorem bucketPath_injective (folder : Chars) :
    Function.Injective (bucketPath folder) := by
  intro k1 k2 h
  unfold bucketPath at h
  rw [List.append_assoc, List.append_assoc] at h
  have h2 := List.append_cancel_left h
  have h3 : k1 ++ ".jsonl".toList = k2 ++ ".jsonl".toList := by
    injection h2
  exact List.append_cancel_right h3

theorem nodup_paths_groupBuckets (tweets : List Tweet) (folder : Chars) :
    ((groupBuckets tweets).map (fun b => bucketPath folder b.1)).Nodup := by
  have h1 : ((groupBuckets tweets).map Prod.fst).Nodup := nodup_keys_groupBuckets tweets
  have h2 := List.Nodup.map (bucketPath_injective folder) h1
  rw [List.map_map] at h2
  exact h2

theorem syncCore_second_run (tweets : List Tweet) (folder : Chars) (v : Vault)
    (hov : v.getOverride = []) :
    syncCore tweets folder (syncCore tweets folder v).2
      = ({ total := tweets.length, synced := 0,
           skipped := (syncCore tweets folder v).1.synced + (syncCore tweets folder v).1.skipped,
           files := 0, errors := [] },
         (syncCore tweets folder v).2) := by
  by_cases hemp : tweets.isEmpty = true
  · simp only [syncCore, if_pos hemp]
  · simp only [syncCore, if_neg hemp]
    have hov1 : ((groupBuckets tweets).foldl (processBucket folder)
        ({ total := tweets.length, synced := 0, skipped := 0, files := 0,
           errors := [] }, v)).2.getOverride = [] :=
      fold_pb_override folder _ _ v hov
    have hsat := fold_saturates folder (groupBuckets tweets)
      { total := tweets.length, synced := 0, skipped := 0, files := 0, errors := [] } v hov
      (nodup_paths_groupBuckets tweets folder)
    rw [fold_saturated folder (groupBuckets tweets) _ _ hov1 hsat]
    have hacc := (fold_accounting folder (groupBuckets tweets)
      { total := tweets.length, synced := 0, skipped := 0, files := 0, errors := [] } v hov).1
    simp only [Prod.mk.injEq, SyncSummary.mk.injEq]
    refine ⟨⟨trivial, trivial, ?_, trivial, trivial⟩, trivial⟩
    simp only [] at hacc ⊢
    omega

/-- Claim C5: against the claim as stated, the second identical run's skipped
count is NOT in general the first run's synced count: with a bucket file that
already holds one of the two exported identifiers, the first run syncs one
document and skips one, and the second run skips two. -/
theorem claim_C5_counterexample :
    (syncCore [twFix "1".toList "86400000".toList, twFix "2".toList "86400000".toList]
        OBSIDIAN_DEFAULT_FOLDER vaultFix).1.synced = 1
    ∧ ¬((syncCore [twFix "1".toList "86400000".toList, twFix "2".toList "86400000".toList]
        OBSIDIAN_DEFAULT_FOLDER
        (syncCore [twFix "1".toList "86400000".toList, twFix "2".toList "86400000".toList]
          OBSIDIAN_DEFAULT_FOLDER vaultFix).2).1.skipped
      = (syncCore [twFix "1".toList "86400000".toList, twFix "2".toList "86400000".toList]
          OBSIDIAN_DEFAULT_FOLDER vaultFix).1.synced) := by
  constructor
  · decide
  · decide

/-- Claim C5 (amended): over a well-behaved remote vault (no injected GET
behavior), running the embedded sync twice with the same record list leaves
the second run with synced = 0, no file writes, no errors, an unchanged
vault, and skipped equal to the first run's synced PLUS skipped counts
(the claim's "skipped = previously synced" holds only when the first run
skipped nothing). -/
theorem claim_C5_second_run_idempotent (tweets : List Tweet) (folder : Chars) (v : Vault)
    (hov : v.getOverride = []) :
    (syncCore tweets folder (syncCore tweets folder v).2).1.synced = 0
    ∧ (syncCore tweets folder (syncCore tweets folder v).2).1.files = 0
    ∧ (syncCore tweets folder (syncCore tweets folder v).2).1.errors = []
    ∧ (syncCore tweets folder (syncCore tweets folder v).2).1.skipped
        = (syncCore tweets folder v).1.synced + (syncCore tweets folder v).1.skipped
    ∧ (syncCore tweets folder (syncCore tweets folder v).2).2 = (syncCore tweets folder v).2 := by
  rw [syncCore_second_run tweets folder v hov]
  exact ⟨rfl, rfl, rfl, rfl, rfl⟩

/-- Claim C5, witness: the amended statement instantiated at the two-record
fixture over the prefilled vault, where the first run syncs one and skips
one and the second run skips two. -/
theorem claim_C5_witness :
    vaultFix.getOverride = []
    ∧ ((syncCore [twFix "1".toList "86400000".toList, twFix "2".toList "86400000".toList]
          OBSIDIAN_DEFAULT_FOLDER
          (syncCore [twFix "1".toList "86400000".toList, twFix "2".toList "86400000".toList]
            OBSIDIAN_DEFAULT_FOLDER vaultFix).2).1.synced = 0
      ∧ (syncCore [twFix "1".toList "86400000".toList, twFix "2".toList "86400000".toList]
          OBSIDIAN_DEFAULT_FOLDER
          (syncCore [twFix "1".toList "86400000".toList, twFix "2".toList "86400000".toList]
            OBSIDIAN_DEFAULT_FOLDER vaultFix).2).1.files = 0
      ∧ (syncCore [twFix "1".toList "86400000".toList, twFix "2".toList "86400000".toList]
          OBSIDIAN_DEFAULT_FOLDER
          (syncCore [twFix "1".toList "86400000".toList, twFix "2".toList "86400000".toList]
            OBSIDIAN_DEFAULT_FOLDER vaultFix).2).1.errors = []
      ∧ (syncCore [twFix "1".toList "86400000".toList, twFix "2".toList "86400000".toList]
          OBSIDIAN_DEFAULT_FOLDER
          (syncCore [twFix "1".toList "86400000".toList, twFix "2".toList "86400000".toList]
            OBSIDIAN_DEFAULT_FOLDER vaultFix).2).1.skipped
          = (syncCore [twFix "1".toList "86400000".toList, twFix "2".toList "86400000".toList]
              OBSIDIAN_DEFAULT_FOLDER vaultFix).1.synced
            + (syncCore [twFix "1".toList "86400000".toList, twFix "2".toList "86400000".toList]
              OBSIDIAN_DEFAULT_FOLDER vaultFix).1.skipped
      ∧ (syncCore [twFix "1".toList "86400000".toList, twFix "2".toList "86400000".toList]
          OBSIDIAN_DEFAULT_FOLDER
          (syncCore [twFix "1".toList "86400000".toList, twFix "2".toList "86400000".toList]
            OBSIDIAN_DEFAULT_FOLDER vaultFix).2).2
        = (syncCore [twFix "1".toList "86400000".toList, twFix "2".toList "86400000".toList]
            OBSIDIAN_DEFAULT_FOLDER vaultFix).2) :=
  ⟨rfl, claim_C5_second_run_idempotent
    [twFix "1".toList "86400000".toList, twFix "2".toList "86400000".toList]
    OBSIDIAN_DEFAULT_FOLDER vaultFix rfl⟩

theorem vaultGet_override (v : Vault) (p : Chars) (s : Int) (t : Chars)
    (h : lookupA v.getOverride p = some (GetBeh.fixedResp s t)) :
    vaultGet v p = Except.ok (ObsResp.mk s t) := by
  unfold vaultGet
  rw [h]

theorem processBucket_resp (folder : Chars) (sum : SyncSummary) (v : Vault)
    (k : Chars) (items : List ObsidianDoc) (s : Int) (t : Chars)
    (hget : vaultGet v (bucketPath folder k) = Except.ok (ObsResp.mk s t)) :
    processBucket folder (sum, v) (k, items)
      = if s = 404 then pbAfterGet folder sum v k items []
        else if isOkStatus s = true then pbAfterGet folder sum v k items t
        else ({ sum with errors := sum.errors ++ [getFailMsg (bucketPath folder k) s] }, v) := by
  simp only [processBucket]
  split
  · rename_i msg heq
    rw [hget] at heq
    exact absurd heq (by simp)
  · rename_i resp heq
    rw [hget] at heq
    have hresp : resp = ObsResp.mk s t := by
      injection heq with h1
      exact h1.symm
    subst hresp
    dsimp only
    by_cases h404 : s = 404
    · subst h404
      rfl
    · by_cases hok : isOkStatus s = true
      · rw [if_pos (Or.inr hok), if_neg h404, if_neg h404, if_pos hok]
        rfl
      · rw [if_neg (not_or.mpr ⟨h404, hok⟩), if_neg h404, if_neg hok]

/-- Claim C8: a 404 bucket read yields empty existing content (full write,
zero pre-existing identifiers) and coincides with the treatment of an
existing empty file; any other non-success read appends a GET error for that
bucket to the summary and leaves the vault untouched, and processing
continues over the remaining buckets from exactly that state. -/
theorem claim_C8_404_empty_error_isolated :
    (∀ (folder : Chars) (sum : SyncSummary) (v : Vault) (k : Chars)
        (items : List ObsidianDoc) (t : Chars),
      lookupA v.getOverride (bucketPath folder k) = some (GetBeh.fixedResp 404 t) →
      processBucket folder (sum, v) (k, items) = pbAfterGet folder sum v k items [])
    ∧ (∀ (folder : Chars) (sum : SyncSummary) (v : Vault) (k : Chars)
        (items : List ObsidianDoc),
      v.getOverride = [] → lookupA v.files (bucketPath folder k) = some [] →
      processBucket folder (sum, v) (k, items) = pbAfterGet folder sum v k items [])
    ∧ (∀ (folder : Chars) (sum : SyncSummary) (v : Vault) (k : Chars)
        (items : List ObsidianDoc) (s : Int) (t : Chars),
      lookupA v.getOverride (bucketPath folder k) = some (GetBeh.fixedResp s t) →
      ¬(s = 404) → isOkStatus s = false →
      processBucket folder (sum, v) (k, items)
        = ({ sum with errors := sum.errors ++ [getFailMsg (bucketPath folder k) s] }, v))
    ∧ (∀ (folder : Chars) (post : List (Chars × List ObsidianDoc)) (sum : SyncSummary)
        (v : Vault) (k : Chars) (items : List ObsidianDoc) (s : Int) (t : Chars),
      lookupA v.getOverride (bucketPath folder k) = some (GetBeh.fixedResp s t) →
      ¬(s = 404) → isOkStatus s = false →
      ((k, items) :: post).foldl (processBucket folder) (sum, v)
        = post.foldl (processBucket folder)
            ({ sum with errors := sum.errors ++ [getFailMsg (bucketPath folder k) s] }, v)) := by
  have h404 : ∀ (folder : Chars) (sum : SyncSummary) (v : Vault) (k : Chars)
      (items : List ObsidianDoc) (t : Chars),
      lookupA v.getOverride (bucketPath folder k) = some (GetBeh.fixedResp 404 t) →
      processBucket folder (sum, v) (k, items) = pbAfterGet folder sum v k items [] := by
    intro folder sum v k items t hov
    rw [processBucket_resp folder sum v k items 404 t (vaultGet_override v _ 404 t hov)]
    rw [if_pos rfl]
  have herr : ∀ (folder : Chars) (sum : SyncSummary) (v : Vault) (k : Chars)
      (items : List ObsidianDoc) (s : Int) (t : Chars),
      lookupA v.getOverride (bucketPath folder k) = some (GetBeh.fixedResp s t) →
      ¬(s = 404) → isOkStatus s = false →
      processBucket folder (sum, v) (k, items)
        = ({ sum with errors := sum.errors ++ [getFailMsg (bucketPath folder k) s] }, v) := by
    intro folder sum v k items s t hov hne hok
    rw [processBucket_resp folder sum v k items s t (vaultGet_override v _ s t hov)]
    rw [if_neg hne, if_neg (by simp [hok])]
  refine ⟨h404, ?_, herr, ?_⟩
  · intro folder sum v k items hov hfile
    exact pb_hit folder sum v k items [] hov hfile
  · intro folder post sum v k items s t hov hne hok
    show post.foldl (processBucket folder) (processBucket folder (sum, v) (k, items)) = _
    rw [herr folder sum v k items s t hov hne hok]

/-- Claim C8, witness: the 404-override vault yields the empty-content
write path; the empty-file vault yields the same; the 500-override vault
records a GET error and leaves the vault untouched; and a following bucket
is still folded from that error state. -/
theorem claim_C8_witness :
    (lookupA vault404.getOverride
        (bucketPath OBSIDIAN_DEFAULT_FOLDER "1970-01-02".toList)
        = some (GetBeh.fixedResp 404 "ignored".toList)
      ∧ processBucket OBSIDIAN_DEFAULT_FOLDER (SyncSummary.mk 1 0 0 0 [], vault404)
          ("1970-01-02".toList, [toObsidianTweet (twFix "2".toList "86400000".toList)])
        = pbAfterGet OBSIDIAN_DEFAULT_FOLDER (SyncSummary.mk 1 0 0 0 []) vault404
            "1970-01-02".toList [toObsidianTweet (twFix "2".toList "86400000".toList)] [])
    ∧ (vaultEmptyFile.getOverride = []
      ∧ lookupA vaultEmptyFile.files
          (bucketPath OBSIDIAN_DEFAULT_FOLDER "1970-01-02".toList) = some []
      ∧ processBucket OBSIDIAN_DEFAULT_FOLDER (SyncSummary.mk 1 0 0 0 [], vaultEmptyFile)
          ("1970-01-02".toList, [toObsidianTweet (twFix "2".toList "86400000".toList)])
        = pbAfterGet OBSIDIAN_DEFAULT_FOLDER (SyncSummary.mk 1 0 0 0 []) vaultEmptyFile
            "1970-01-02".toList [toObsidianTweet (twFix "2".toList "86400000".toList)] [])
    ∧ (lookupA vault500.getOverride
        (bucketPath OBSIDIAN_DEFAULT_FOLDER "1970-01-02".toList)
        = some (GetBeh.fixedResp 500 [])
      ∧ ¬((500 : Int) = 404) ∧ isOkStatus 500 = false
      ∧ processBucket OBSIDIAN_DEFAULT_FOLDER (SyncSummary.mk 1 0 0 0 [], vault500)
          ("1970-01-02".toList, [toObsidianTweet (twFix "2".toList "86400000".toList)])
        = ({ SyncSummary.mk 1 0 0 0 [] with
              errors := [] ++ [getFailMsg
                (bucketPath OBSIDIAN_DEFAULT_FOLDER "1970-01-02".toList) 500] }, vault500))
    ∧ (("1970-01-02".toList,
          [toObsidianTweet (twFix "2".toList "86400000".toList)]) ::
        [("1970-01-03".toList, [toObsidianTweet (twFix "3".toList "172800000".toList)])]
          |>.foldl (processBucket OBSIDIAN_DEFAULT_FOLDER) (SyncSummary.mk 1 0 0 0 [], vault500))
        = ([("1970-01-03".toList, [toObsidianTweet (twFix "3".toList "172800000".toList)])]
            |>.foldl (processBucket OBSIDIAN_DEFAULT_FOLDER)
              ({ SyncSummary.mk 1 0 0 0 [] with
                  errors := [] ++ [getFailMsg
                    (bucketPath OBSIDIAN_DEFAULT_FOLDER "1970-01-02".toList) 500] },
                vault500)) :=
  ⟨⟨by decide,
    claim_C8_404_empty_error_isolated.1 OBSIDIAN_DEFAULT_FOLDER (SyncSummary.mk 1 0 0 0 [])
      vault404 "1970-01-02".toList
      [toObsidianTweet (twFix "2".toList "86400000".toList)] "ignored".toList (by decide)⟩,
   ⟨rfl, by decide,
    claim_C8_404_empty_error_isolated.2.1 OBSIDIAN_DEFAULT_FOLDER (SyncSummary.mk 1 0 0 0 [])
      vaultEmptyFile "1970-01-02".toList
      [toObsidianTweet (twFix "2".toList "86400000".toList)] rfl (by decide)⟩,
   ⟨by decide, by decide, rfl,
    claim_C8_404_empty_error_isolated.2.2.1 OBSIDIAN_DEFAULT_FOLDER (SyncSummary.mk 1 0 0 0 [])
      vault500 "1970-01-02".toList
      [toObsidianTweet (twFix "2".toList "86400000".toList)] 500 [] (by decide) (by decide) rfl⟩,
   claim_C8_404_empty_error_isolated.2.2.2 OBSIDIAN_DEFAULT_FOLDER
     [("1970-01-03".toList, [toObsidianTweet (twFix "3".toList "172800000".toList)])]
     (SyncSummary.mk 1 0 0 0 []) vault500 "1970-01-02".toList
     [toObsidianTweet (twFix "2".toList "86400000".toList)] 500 [] (by decide) (by decide) rfl⟩
